import Mathlib

/-!
Verification of the OneTrueAddress address-reconciliation pipeline.

The development shallowly embeds the pipeline of `address_agent.py`,
`golden_source.py` and `main_alt.py`:

* Python/JSON scalar values are modelled by `PyVal`; Python dicts are
  association lists with unique keys, where assignment overwrites in place
  (`storeAssoc`), matching CPython's insertion-order semantics.
* `json.loads` is modelled by `pyJsonLoads`, a total fuel-indexed parser of
  the RFC 8259 grammar with Python's int/float distinction and last-wins
  duplicate object keys.  (The model omits Python's nonstandard
  `NaN`/`Infinity` literals and `\uXXXX` surrogate pairing; neither occurs
  in any input considered here.)
* Stateful Python code becomes explicit state passing: exceptions are
  `Except String`, and in-place mutation of candidate records (the
  `_ai_analysis` attachment) is translated by tracking *references*
  (`Sel` tags) and re-dereferencing them after the update, which is the
  standard purely-functional rendering of aliased heap objects.
* Similarity scores and thresholds are modelled as rationals (`ℚ`), an
  exact model of the float values the pipeline manipulates (the pipeline
  performs no arithmetic on them, only comparison and selection, so no
  rounding behaviour is lost).
-/

/-! ### Python values -/

/-- A Python value as the pipeline sees it: JSON scalars and collections,
with Python's `int`/`float` distinction kept (it matters for list
indexing: `xs[2]` works, `xs[2.0]` raises `TypeError`). -/
inductive PyVal where
  | null
  | bool (b : Bool)
  | int (n : Int)
  | float (q : ℚ)
  | str (s : String)
  | arr (xs : List PyVal)
  | obj (kvs : List (String × PyVal))

/-- A Python dict lookup (`d[k]` / `d.get(k)`): first binding of the key.
Keys are unique in dicts built by this model, so first = only. -/
def pyGet (kvs : List (String × PyVal)) (k : String) : Option PyVal :=
  (kvs.find? (fun e => e.1 == k)).map (fun e => e.2)

/-- `d.get(k, default)`. -/
def pyGetD (kvs : List (String × PyVal)) (k : String) (d : PyVal) : PyVal :=
  (pyGet kvs k).getD d

/-- Python dict assignment `d[k] = v`: overwrite in place if the key is
present (keeping its original position, as CPython does), else append. -/
def storeAssoc {β : Type} (kvs : List (String × β)) (k : String) (v : β) :
    List (String × β) :=
  if kvs.any (fun e => e.1 == k) then
    kvs.map (fun e => if e.1 == k then (e.1, v) else e)
  else
    kvs ++ [(k, v)]

/-- Python `str.strip()` / regex `\s` whitespace: space, tab, LF, CR, VT, FF. -/
def pyIsSpaceChar (c : Char) : Bool :=
  let n := c.toNat
  n == 32 || (9 ≤ n && n ≤ 13)

/-- Strip `pyIsSpaceChar` characters from both ends (Python `str.strip()`). -/
def pyStripList (cs : List Char) : List Char :=
  ((cs.dropWhile pyIsSpaceChar).reverse.dropWhile pyIsSpaceChar).reverse

/-- Python `str.strip()`. -/
def pyStrip (s : String) : String := String.mk (pyStripList s.toList)

/-- Python `str.lower()` (ASCII case folding; all column names and address
fields in this pipeline are ASCII).  Written over the character list —
extensionally `String.toLower` — so concrete runs reduce in the kernel. -/
def pyLower (s : String) : String := String.mk (s.toList.map Char.toLower)

/-- Boolean list-prefix test. -/
def isPrefixB : List Char → List Char → Bool
  | a :: as, b :: bs => a == b && isPrefixB as bs
  | p, _ => p.isEmpty

/-- Boolean contiguous-sublist test. -/
def isSubListB (p : List Char) : List Char → Bool
  | [] => p.isEmpty
  | c :: t => isPrefixB p (c :: t) || isSubListB p t

/-- Python `needle in hay` for strings: contiguous substring. -/
def pyIn (needle hay : String) : Bool := isSubListB needle.toList hay.toList

/-- Python truthiness (`if x:`). -/
def pyTruthy : PyVal → Bool
  | .null => false
  | .bool b => b
  | .int n => n != 0
  | .float q => q != 0
  | .str s => !(s == "")
  | .arr xs => !xs.isEmpty
  | .obj kvs => !kvs.isEmpty

/-- Python `str(v)` for the scalar values the pipeline stores in records.
Renderings of floats and collections are abstract placeholders: the
pipeline only ever applies `str` to DB scalars and JSON scalars. -/
def pyStr : PyVal → String
  | .str s => s
  | .int n => toString n
  | .bool b => if b then "True" else "False"
  | .null => "None"
  | .float q => toString q
  | .arr _ => "[...]"
  | .obj _ => "\x7b...\x7d"

/-- Numeric view of a Python value, for comparisons and `%`-formatting:
ints, floats, and bools (Python bools are ints) are numeric; everything
else raises in a numeric context. -/
def pyToQ : PyVal → Option ℚ
  | .int n => some (n : ℚ)
  | .float q => some q
  | .bool b => some (if b then 1 else 0)
  | _ => none

/-- Python `v == "lit"` against a string literal: only an equal string
compares true (numbers, `None` and collections are never `==` a `str`). -/
def pyEqStr (v : PyVal) (s : String) : Bool :=
  match v with
  | .str t => t == s
  | _ => false

/-! ### The JSON decoder (`json.loads`) -/

/-- ASCII digit test. -/
def isDigitB (c : Char) : Bool := '0' ≤ c && c ≤ '9'

/-- JSON inter-token whitespace (RFC 8259: space, tab, LF, CR). -/
def jsonWs (c : Char) : Bool :=
  let n := c.toNat
  n == 32 || n == 9 || n == 10 || n == 13

/-- Opening/closing braces, named so the scanner can compare against them. -/
def lbrace : Char := Char.ofNat 123

/-- See `lbrace`. -/
def rbrace : Char := Char.ofNat 125

/-- Numeric value of a digit run. -/
def digitsToNat (ds : List Char) : Nat :=
  ds.foldl (fun acc c => acc * 10 + (c.toNat - '0'.toNat)) 0

/-- Hex digit value, for `\uXXXX` escapes (codepoint arithmetic: 48-57
are the digits, 97-102 lowercase a-f, 65-70 uppercase A-F). -/
def hexDigitVal (c : Char) : Option Nat :=
  let n := c.toNat
  if 48 ≤ n && n ≤ 57 then some (n - 48)
  else if 97 ≤ n && n ≤ 102 then some (n - 87)
  else if 65 ≤ n && n ≤ 70 then some (n - 55)
  else none

/-- Decode the body of a JSON string after the opening quote, honouring the
escape set of RFC 8259 and rejecting raw control characters, as Python's
strict decoder does. -/
def jsonString (acc : List Char) : List Char → Option (String × List Char)
  | [] => none
  | c :: rest =>
    if c == '"' then some (String.mk acc.reverse, rest)
    else if c == '\\' then
      match rest with
      | [] => none
      | e :: rest2 =>
        if e == '"' then jsonString ('"' :: acc) rest2
        else if e == '\\' then jsonString ('\\' :: acc) rest2
        else if e == '/' then jsonString ('/' :: acc) rest2
        else if e == 'b' then jsonString (Char.ofNat 8 :: acc) rest2
        else if e == 'f' then jsonString (Char.ofNat 12 :: acc) rest2
        else if e == 'n' then jsonString ('\n' :: acc) rest2
        else if e == 'r' then jsonString ('\r' :: acc) rest2
        else if e == 't' then jsonString ('\t' :: acc) rest2
        else if e == 'u' then
          match rest2 with
          | a :: b :: cc :: d :: rest3 =>
            match hexDigitVal a, hexDigitVal b, hexDigitVal cc, hexDigitVal d with
            | some va, some vb, some vc, some vd =>
              jsonString (Char.ofNat (((va * 16 + vb) * 16 + vc) * 16 + vd) :: acc) rest3
            | _, _, _, _ => none
          | _ => none
        else none
    else if c.toNat < 32 then none
    else jsonString (c :: acc) rest

/-- Decode the exponent part of a JSON number and finish as a Python
`float`. -/
def jsonExponent (neg : Bool) (mant : ℚ) (r : List Char) : Option (PyVal × List Char) :=
  let (eneg, r1) := match r with
    | '+' :: r2 => (false, r2)
    | '-' :: r2 => (true, r2)
    | _ => (false, r)
  let eds := r1.takeWhile isDigitB
  if eds.isEmpty then none
  else
    let e : Int := if eneg then -(digitsToNat eds : Int) else (digitsToNat eds : Int)
    some (.float ((if neg then -1 else 1) * mant * (10 : ℚ) ^ e), r1.drop eds.length)

/-- The digits/fraction/exponent tail of a JSON number, after the optional
minus sign; leading zeros are rejected per the grammar. -/
def jsonNumberAfterSign (neg : Bool) (cs1 : List Char) : Option (PyVal × List Char) :=
  let intDs := cs1.takeWhile isDigitB
  let cs2 := cs1.drop intDs.length
  if intDs.isEmpty then none
  else if intDs.length > 1 && intDs.headD '0' == '0' then none
  else
    match cs2 with
    | '.' :: r =>
      let fracDs := r.takeWhile isDigitB
      let cs3 := r.drop fracDs.length
      if fracDs.isEmpty then none
      else
        let withFrac : ℚ := (digitsToNat (intDs ++ fracDs) : ℚ) / ((10 : ℚ) ^ fracDs.length)
        match cs3 with
        | 'e' :: r2 => jsonExponent neg withFrac r2
        | 'E' :: r2 => jsonExponent neg withFrac r2
        | _ => some (.float ((if neg then -1 else 1) * withFrac), cs3)
    | 'e' :: r2 => jsonExponent neg (digitsToNat intDs : ℚ) r2
    | 'E' :: r2 => jsonExponent neg (digitsToNat intDs : ℚ) r2
    | _ => some (.int ((if neg then -1 else 1) * (digitsToNat intDs : Int)), cs2)

/-- Decode a JSON number.  Integer syntax (no fraction/exponent) yields a
Python `int`, otherwise a `float`. -/
def jsonNumber (cs : List Char) : Option (PyVal × List Char) :=
  match cs with
  | '-' :: r => jsonNumberAfterSign true r
  | _ => jsonNumberAfterSign false cs

/-- Build a Python dict from decoded members in order: a repeated key
overwrites the earlier value in place (last value wins, first position
kept), exactly the effect of the decoder's repeated `d[key] = value`. -/
def buildDict (pairs : List (String × PyVal)) : List (String × PyVal) :=
  pairs.foldl (fun d e => storeAssoc d e.1 e.2) []

mutual

/-- Decode one JSON value (fuel-indexed for totality; the callers always
supply fuel larger than the input length, which suffices). -/
def jsonVal (fuel : Nat) (cs : List Char) : Option (PyVal × List Char) :=
  match fuel with
  | 0 => none
  | fuel + 1 =>
    match cs.dropWhile jsonWs with
    | 'n' :: 'u' :: 'l' :: 'l' :: r => some (.null, r)
    | 't' :: 'r' :: 'u' :: 'e' :: r => some (.bool true, r)
    | 'f' :: 'a' :: 'l' :: 's' :: 'e' :: r => some (.bool false, r)
    | '"' :: r =>
      match jsonString [] r with
      | some (s, r2) => some (.str s, r2)
      | none => none
    | '[' :: r =>
      match (r.dropWhile jsonWs) with
      | c :: r2 =>
        if c == ']' then some (.arr [], r2)
        else
          match jsonItems fuel (c :: r2) with
          | some (xs, r3) => some (.arr xs, r3)
          | none => none
      | [] => none
    | c :: r =>
      if c == lbrace then
        match (r.dropWhile jsonWs) with
        | c2 :: r2 =>
          if c2 == rbrace then some (.obj [], r2)
          else
            match jsonMembers fuel (c2 :: r2) with
            | some (kvs, r3) => some (.obj (buildDict kvs), r3)
            | none => none
        | [] => none
      else if c == '-' || isDigitB c then jsonNumber (c :: r)
      else none
    | [] => none

/-- Decode one-or-more comma-separated array items up to `]`. -/
def jsonItems (fuel : Nat) (cs : List Char) : Option (List PyVal × List Char) :=
  match fuel with
  | 0 => none
  | fuel + 1 =>
    match jsonVal fuel cs with
    | none => none
    | some (v, r) =>
      match r.dropWhile jsonWs with
      | ',' :: r2 =>
        match jsonItems fuel r2 with
        | some (vs, r3) => some (v :: vs, r3)
        | none => none
      | ']' :: r2 => some ([v], r2)
      | _ => none

/-- Decode one-or-more comma-separated object members up to the closing
brace, as the raw key/value sequence (deduplicated by `buildDict` at the
object node). -/
def jsonMembers (fuel : Nat) (cs : List Char) : Option (List (String × PyVal) × List Char) :=
  match fuel with
  | 0 => none
  | fuel + 1 =>
    match cs.dropWhile jsonWs with
    | '"' :: r =>
      match jsonString [] r with
      | none => none
      | some (k, r1) =>
        match r1.dropWhile jsonWs with
        | ':' :: r2 =>
          match jsonVal fuel r2 with
          | none => none
          | some (v, r3) =>
            match r3.dropWhile jsonWs with
            | ',' :: r4 =>
              match jsonMembers fuel r4 with
              | some (kvs, r5) => some ((k, v) :: kvs, r5)
              | none => none
            | c :: r4 =>
              if c == rbrace then some ([(k, v)], r4) else none
            | [] => none
        | _ => none
    | _ => none

end

/-- `json.loads(s)`: decode a complete document; trailing non-whitespace is
an error. -/
def pyJsonLoads (s : String) : Option PyVal :=
  let cs := s.toList
  match jsonVal (cs.length + 1) cs with
  | none => none
  | some (v, r) => if (r.dropWhile jsonWs).isEmpty then some v else none

/-! ### `_parse_claude_response`: the three-tier recovery -/

/-- The backtick character, named to keep fence matching readable. -/
def btick : Char := Char.ofNat 96

/-- Match a literal ``` fence at the head of the input. -/
def matchFence : List Char → Option (List Char)
  | a :: b :: c :: rest =>
    if a == btick && b == btick && c == btick then some rest else none
  | _ => none

/-- The lazy group `(\{.*?\})\s*` + fence of the tier-2 regex: extend the
group one character at a time, stopping at the first closing brace that is
followed by optional whitespace and a closing fence. -/
def lazyGroupEnd (acc : List Char) : List Char → Option (List Char)
  | [] => none
  | c :: rest =>
    if c == rbrace && (matchFence (rest.dropWhile pyIsSpaceChar)).isSome then
      some ((lbrace :: acc.reverse) ++ [rbrace])
    else
      lazyGroupEnd (c :: acc) rest

/-- Attempt the tier-2 pattern at the current position: an opening fence,
an optional `json` tag, optional whitespace, then the lazy brace group.
(`(?:json)?` never needs backtracking here: when the letters `json` are
present, the no-tag alternative would require `\s*\x7b` to match at the
letter `j`, which is impossible.) -/
def codeBlockAt (cs : List Char) : Option (List Char) :=
  match matchFence cs with
  | none => none
  | some r =>
    let r1 := match r with
      | 'j' :: 's' :: 'o' :: 'n' :: rest => rest
      | _ => r
    match r1.dropWhile pyIsSpaceChar with
    | c :: r2 => if c == lbrace then lazyGroupEnd [] r2 else none
    | [] => none

/-- `re.search` of the tier-2 pattern: try each start offset left to
right, returning the first (leftmost) match's brace group. -/
def codeBlockSearch : List Char → Option (List Char)
  | [] => none
  | c :: rest =>
    match codeBlockAt (c :: rest) with
    | some g => some g
    | none => codeBlockSearch rest

/-- Tier 3's bracket scan, transcribed from the source: walk characters
tracking bracket depth, an in-string flag, and a pending-escape flag; when
the depth returns to zero, yield the slice from the first `\x7b` through
the matching `\x7d`.  `none` when the input ends before the braces
balance. -/
def braceScan (acc : List Char) (depth : Int) (inString escapeNext : Bool) :
    List Char → Option (List Char)
  | [] => none
  | c :: rest =>
    if escapeNext then braceScan (c :: acc) depth inString false rest
    else if c == '\\' then braceScan (c :: acc) depth inString true rest
    else if c == '"' then braceScan (c :: acc) depth (!inString) escapeNext rest
    else if !inString && c == lbrace then braceScan (c :: acc) (depth + 1) inString escapeNext rest
    else if !inString && c == rbrace then
      if depth - 1 == 0 then some (c :: acc).reverse
      else braceScan (c :: acc) (depth - 1) inString escapeNext rest
    else braceScan (c :: acc) depth inString escapeNext rest

/-- Tier 3: find the first `\x7b`, scan to its matching `\x7d`, and decode
that slice; the source `break`s (rather than trying later braces) when the
slice fails to decode. -/
def braceExtract (s : String) : Option PyVal :=
  let tail := s.toList.dropWhile (fun c => !(c == lbrace))
  match tail with
  | [] => none
  | _ :: _ =>
    match braceScan [] 0 false false tail with
    | some slice => pyJsonLoads (String.mk slice)
    | none => none

/-- `_parse_claude_response`: whole-text decode, then the fenced code
block, then the bracket scan; when all three fail the result is the
raw-text sentinel dict — which is itself a dict, a fact central to claim
C1. -/
def parseClaudeResponse (responseText : String) : PyVal :=
  match pyJsonLoads (pyStrip responseText) with
  | some v => v
  | none =>
    match (codeBlockSearch responseText.toList).map String.mk with
    | some g =>
      match pyJsonLoads g with
      | some v => v
      | none =>
        match braceExtract responseText with
        | some v => v
        | none => .obj [("raw_text", .str responseText),
                        ("note", .str "Could not parse JSON from Claude response")]
    | none =>
      match braceExtract responseText with
      | some v => v
      | none => .obj [("raw_text", .str responseText),
                      ("note", .str "Could not parse JSON from Claude response")]

/-! ### Candidate records, merging, ranking -/

/-- A candidate address record: a Python dict from column names to values,
tagged by the retriever with `_similarity_score`, `_source_type` and
`_source_table` entries. -/
abbrev CandRec := List (String × PyVal)

/-- `match.get('_similarity_score', 0)` as a Python value. -/
def scorePy (r : CandRec) : PyVal := pyGetD r "_similarity_score" (.int 0)

/-- The numeric similarity score used as the sort key.  Non-numeric scores
(which the retriever never produces) read as 0 here; CPython would raise
from inside `list.sort` instead, so theorems that depend on ordering add a
numeric-score hypothesis where it matters. -/
def scoreOf (r : CandRec) : ℚ := (pyToQ (scorePy r)).getD 0

/-- `numericPy v` holds for the values Python will happily `%`-format and
compare numerically: ints, floats and bools. -/
def numericPy : PyVal → Bool
  | .int _ => true
  | .float _ => true
  | .bool _ => true
  | _ => false

/-- A reference to a candidate object of this invocation: an index into the
golden-source list, an index into the internal list, or the head of the
sorted merged list (`all_matches[0]`).  Python passes the dict objects
themselves around; the tag records which object, so the model can observe
in-place mutation (`_ai_analysis` attachment) through every alias. -/
inductive SelRef where
  | gsAt (n : Nat)
  | intAt (n : Nat)
  | topMerged

/-- Tag each golden-source record with its list position. -/
def tagGs : Nat → List CandRec → List (SelRef × CandRec)
  | _, [] => []
  | n, r :: rs => (SelRef.gsAt n, r) :: tagGs (n + 1) rs

/-- Tag each internal record with its list position. -/
def tagInternal : Nat → List CandRec → List (SelRef × CandRec)
  | _, [] => []
  | n, r :: rs => (SelRef.intAt n, r) :: tagInternal (n + 1) rs

/-- `all_matches = golden_source_matches + internal_matches`, with each
element remembering which original object it is. -/
def taggedMatches (gs ints : List CandRec) : List (SelRef × CandRec) :=
  tagGs 0 gs ++ tagInternal 0 ints

/-- The comparison of `all_matches.sort(key=..._similarity_score, reverse=True)`:
descending by score.  Ties keep list order (CPython's sort is stable, and
`List.mergeSort` is stable for the same comparison), so the sorted list is
exactly CPython's. -/
def scoreDescB (a b : SelRef × CandRec) : Bool := scoreOf b.2 ≤ scoreOf a.2

/-- Insert a candidate into a descending-sorted list, after every element
with a strictly greater score and before ties: combined with `foldr`, this
computes the unique stable descending sort — element-for-element the list
CPython's stable `list.sort(key=..., reverse=True)` produces.  (A
structural recursion is used rather than a library merge sort so that
concrete runs reduce inside the kernel.) -/
def insertDescending (x : SelRef × CandRec) : List (SelRef × CandRec) → List (SelRef × CandRec)
  | [] => [x]
  | y :: ys => if scoreOf x.2 < scoreOf y.2 then y :: insertDescending x ys else x :: y :: ys

/-- The sorted merged ranking. -/
def sortMatches (l : List (SelRef × CandRec)) : List (SelRef × CandRec) :=
  l.foldr insertDescending []

/-! ### `_review_fuzzy_matches_with_claude` -/

/-- The behaviour of the reasoning-model client on one call: either the
request/await raises, or a response text comes back.  The prompt is pure
string formatting, so this is the only external input of the review step. -/
inductive ClientOutcome where
  | raises (msg : String)
  | responds (text : String)

/-- The dict returned by the review step.  `bestSel` is the reference the
`best_match` entry holds (see `SelRef`). -/
structure ClaudeReview where
  matchFound : PyVal
  bestSel : Option SelRef
  confidence : PyVal
  reasoning : PyVal
  concerns : PyVal
  fuzzyScore : PyVal
  matchAnalyses : List (String × PyVal)

/-- The prompt enumerates every candidate with `f"[{score:.1f}%]"`;
formatting a non-numeric score raises.  True exactly when prompt
construction succeeds. -/
def promptBuildOk (gs ints : List CandRec) : Bool :=
  (gs ++ ints).all (fun r => numericPy (scorePy r))

/-- Python `int(s)` on the analysis keys: optional surrounding whitespace,
optional sign, then digits.  (`_`-separated digit groups are accepted by
CPython but never produced by JSON keys, and are omitted.) -/
def pyParseInt (s : String) : Option Int :=
  let cs := pyStripList s.toList
  match cs with
  | '+' :: ds => if !ds.isEmpty && ds.all isDigitB then some (digitsToNat ds : Int) else none
  | '-' :: ds => if !ds.isEmpty && ds.all isDigitB then some (-(digitsToNat ds : Int)) else none
  | ds => if !ds.isEmpty && ds.all isDigitB then some (digitsToNat ds : Int) else none

/-- `parsed_response.get('best_match_index', 1) - 1` as Python evaluates
it: ints and bools subtract to an int, floats stay floats, anything else
raises `TypeError`. -/
inductive PyIndex where
  | intIx (n : Int)
  | floatIx (q : ℚ)

/-- Numeric value of a `PyIndex`, for the range comparison. -/
def ixVal : PyIndex → ℚ
  | .intIx n => (n : ℚ)
  | .floatIx q => q

/-- The `- 1` (0-basing) step; see `PyIndex`. -/
def pySubOne : PyVal → Except String PyIndex
  | .int n => .ok (.intIx (n - 1))
  | .bool b => .ok (.intIx ((if b then 1 else 0) - 1))
  | .float q => .ok (.floatIx (q - 1))
  | _ => .error "TypeError: unsupported operand type for -"

/-- The `if/elif` chain choosing the recommended match: a recognized source
with an in-range index dereferences that source's truncated list (a float
index passes the range test but raises at the subscript, caught by the
outer handler); otherwise `all_matches[0]` when any candidate exists, else
the empty dict. -/
def selectRecommended (src : PyVal) (ix : PyIndex)
    (gsLen intLen allLen : Nat) : Except String (Option SelRef) :=
  if pyEqStr src "golden_source" && decide (0 ≤ ixVal ix) && decide (ixVal ix < gsLen) then
    match ix with
    | .intIx n => .ok (some (.gsAt n.toNat))
    | .floatIx _ => .error "TypeError: list indices must be integers"
  else if pyEqStr src "internal" && decide (0 ≤ ixVal ix) && decide (ixVal ix < intLen) then
    match ix with
    | .intIx n => .ok (some (.intAt n.toNat))
    | .floatIx _ => .error "TypeError: list indices must be integers"
  else if allLen > 0 then .ok (some .topMerged)
  else .ok none

/-- One source's analyses loop: `.items()` on a non-dict raises
`AttributeError`; keys that fail `int()` are skipped; a non-dict analysis
value raises `AttributeError` at the `analysis.get('confidence', ...)`
debug print; accepted entries land in `converted_analyses` under
`f"gs_{idx}"` / `f"int_{idx}"` with dict-assignment semantics. -/
def processAnalyses (keyPre : String) (v : PyVal)
    (acc : List (String × PyVal)) : Except String (List (String × PyVal)) :=
  match v with
  | .obj entries => analysesLoop keyPre entries acc
  | _ => .error "AttributeError: object has no attribute items"
where
  analysesLoop (keyPre : String) :
      List (String × PyVal) → List (String × PyVal) → Except String (List (String × PyVal))
    | [], acc => .ok acc
    | (k, a) :: rest, acc =>
      match pyParseInt k with
      | none => analysesLoop keyPre rest acc
      | some i =>
        match a with
        | .obj _ => analysesLoop keyPre rest (storeAssoc acc (keyPre ++ toString (i - 1)) a)
        | _ => .error "AttributeError: object has no attribute get"

/-- `all_matches[0].get('_similarity_score', 0) if all_matches else 0`. -/
def defaultConfidence (allM : List (SelRef × CandRec)) : PyVal :=
  match allM with
  | [] => .int 0
  | p :: _ => scorePy p.2

/-- The body of the review step's `try:` block — prompt construction, the
client call, parsing, recommended-match selection and analysis conversion —
with every Python exception surfaced as `.error`. -/
def reviewTryBody (outcome : ClientOutcome) (allM : List (SelRef × CandRec))
    (gs ints : List CandRec) : Except String ClaudeReview :=
  if !promptBuildOk gs ints then
    .error "TypeError: unsupported format string"
  else
    match outcome with
    | .raises msg => .error msg
    | .responds text =>
      match parseClaudeResponse text with
      | .obj fields =>
        match pySubOne (pyGetD fields "best_match_index" (.int 1)) with
        | .error e => .error e
        | .ok ix =>
          match selectRecommended (pyGetD fields "best_match_source" (.str "golden_source"))
              ix gs.length ints.length allM.length with
          | .error e => .error e
          | .ok sel =>
            match processAnalyses "gs_" (pyGetD fields "golden_source_analyses" (.obj [])) [] with
            | .error e => .error e
            | .ok conv1 =>
              match processAnalyses "int_" (pyGetD fields "internal_analyses" (.obj [])) conv1 with
              | .error e => .error e
              | .ok conv2 =>
                .ok { matchFound := pyGetD fields "match_found" (.bool true)
                      bestSel := sel
                      confidence := pyGetD fields "confidence" (defaultConfidence allM)
                      reasoning := pyGetD fields "reasoning" (.str "Claude reviewed the matches")
                      concerns := (pyGet fields "concerns").getD .null
                      fuzzyScore := defaultConfidence allM
                      matchAnalyses := conv2 }
      | _ =>
        match allM with
        | [] => .error "IndexError: list index out of range"
        | p :: _ =>
          .ok { matchFound := .bool true
                bestSel := some .topMerged
                confidence := scorePy p.2
                reasoning := .str "Using fuzzy match result (Claude review unavailable)"
                concerns := .null
                fuzzyScore := scorePy p.2
                matchAnalyses := [] }

/-- `_review_fuzzy_matches_with_claude`: the `try:` body, with the
`except Exception` handler falling back to the top fuzzy candidate — and
itself raising `IndexError` on `all_matches[0]` when there are no
candidates at all. -/
def reviewFuzzyMatchesWithClaude (outcome : ClientOutcome)
    (allM : List (SelRef × CandRec)) (gs ints : List CandRec) :
    Except String ClaudeReview :=
  match reviewTryBody outcome allM gs ints with
  | .ok r => .ok r
  | .error e =>
    match allM with
    | [] => .error "IndexError: list index out of range"
    | p :: _ =>
      .ok { matchFound := .bool true
            bestSel := some .topMerged
            confidence := scorePy p.2
            reasoning := .str ("Using fuzzy match result (Claude review failed: " ++ e ++ ")")
            concerns := .null
            fuzzyScore := scorePy p.2
            matchAnalyses := [] }

/-! ### `match_address` -/

/-- The decision dict returned by `match_address`.  Fields that exist only
in the match-found dict are `Option`s, `none` in the no-match dict (the
literal key lists are `matchResultKeys` below).  `adjudicationCalled`
records whether a request was issued to the reasoning-model client. -/
structure MatchOutput where
  matchFound : Bool
  bestMatch : Option CandRec
  gsMatches : List CandRec
  intMatches : List CandRec
  hasGoldenSource : Bool
  hasInternal : Bool
  confidence : Option PyVal
  reasoning : PyVal
  businessRuleException : Option Bool
  confidenceThreshold : Option ℚ
  candidatesSearched : Nat
  searchMethod : String
  claudeReview : Option ClaudeReview
  adjudicationCalled : Bool

/-- The `_ai_analysis` attachment loop over one source's first ten records
(`enumerate(matches[:10])` mutates those objects in place; the rest of the
list is untouched). -/
def attachAnalyses (keyPre : String) (analyses : List (String × PyVal)) :
    Nat → List CandRec → List CandRec
  | _, [] => []
  | i, r :: rs =>
    (if i < 10 then
      match pyGet analyses (keyPre ++ toString i) with
      | some a => storeAssoc r "_ai_analysis" a
      | none => r
    else r) :: attachAnalyses keyPre analyses (i + 1) rs

/-- Dereference a candidate reference against the current state of both
lists (after any in-place mutation): this is how an aliased dict object
reads after `match['_ai_analysis'] = ...` ran on the lists. -/
def resolveRef (allSorted : List (SelRef × CandRec)) (gsNow intNow : List CandRec) :
    Option SelRef → CandRec
  | none => []
  | some (.gsAt n) => (gsNow[n]?).getD []
  | some (.intAt n) => (intNow[n]?).getD []
  | some .topMerged =>
    match allSorted with
    | [] => []
    | (.gsAt n, _) :: _ => (gsNow[n]?).getD []
    | (.intAt n, _) :: _ => (intNow[n]?).getD []
    | (.topMerged, _) :: _ => []

/-- `match_address`, taking the candidate-retrieval output (the
`fuzzy_match_addresses` collaborator's three fields) and the client
behaviour as inputs, with `fuzzyThreshold` the process-wide configured
`FUZZY_MATCH_THRESHOLD`.  Python exceptions surface as `.error`:
in particular the eager `all_matches[0]` on line 162 raises `IndexError`
when both candidate lists are empty, and the `f"{best_score:.2f}"` print
raises when the adjudicated confidence is not a number. -/
def matchAddress (gsMatches intMatches : List CandRec) (totalMatches : Nat)
    (outcome : ClientOutcome) (fuzzyThreshold : ℚ) : Except String MatchOutput :=
  if totalMatches = 0 then
    .ok { matchFound := false
          bestMatch := none
          gsMatches := []
          intMatches := []
          hasGoldenSource := false
          hasInternal := false
          confidence := none
          reasoning := .str "No addresses found matching the search criteria with sufficient similarity in either table."
          businessRuleException := none
          confidenceThreshold := none
          candidatesSearched := 0
          searchMethod := "fuzzy_match"
          claudeReview := none
          adjudicationCalled := false }
  else
    let sorted := sortMatches (taggedMatches gsMatches intMatches)
    match reviewFuzzyMatchesWithClaude outcome (sorted.take 10)
        (gsMatches.take 10) (intMatches.take 10) with
    | .error e => .error e
    | .ok rev =>
      match sorted with
      | [] => .error "IndexError: list index out of range"
      | _ :: _ =>
        let gsNow := attachAnalyses "gs_" rev.matchAnalyses 0 gsMatches
        let intNow := attachAnalyses "int_" rev.matchAnalyses 0 intMatches
        let found := pyTruthy rev.matchFound
        let best : CandRec :=
          if found then resolveRef sorted gsNow intNow rev.bestSel
          else resolveRef sorted gsNow intNow (some .topMerged)
        let bestScore : PyVal :=
          if found then rev.confidence else pyGetD best "_similarity_score" (.int 0)
        match pyToQ bestScore with
        | none => .error "ValueError: unknown format code f for given object"
        | some q =>
          .ok { matchFound := true
                bestMatch := some best
                gsMatches := gsNow
                intMatches := intNow
                hasGoldenSource := !gsNow.isEmpty
                hasInternal := !intNow.isEmpty
                confidence := some bestScore
                reasoning := rev.reasoning
                businessRuleException := some (decide (q < fuzzyThreshold))
                confidenceThreshold := some fuzzyThreshold
                candidatesSearched := totalMatches
                searchMethod := "fuzzy_match_with_ai"
                claudeReview := some rev
                adjudicationCalled := true }

/-! ### `main_alt.py`: the CLI result-printing slice -/

/-- The literal key sets of the two dicts `match_address` returns
(transcribed from its two `return` statements). -/
def matchResultKeys (r : MatchOutput) : List String :=
  if r.matchFound then
    ["input_address", "match_found", "best_match", "golden_source_matches",
     "internal_matches", "has_golden_source", "has_internal",
     "similarity_score", "confidence", "reasoning", "claude_review",
     "business_rule_exception", "confidence_threshold", "candidates_searched",
     "search_method", "matched_address"]
  else
    ["input_address", "match_found", "golden_source_matches",
     "internal_matches", "reasoning", "candidates_searched", "search_method",
     "has_golden_source", "has_internal"]

/-- The `try:` body of `main()` after `match_address` returns: it prints
`result['input_address']`, tests `'candidates_searched' in result` (never
raising), then subscripts `result['claude_response']` — a `KeyError`
whenever that key is absent. -/
def mainAltTryBody (resultKeys : List String) : Except String Unit :=
  if !(resultKeys.contains "input_address") then .error "KeyError: input_address"
  else if !(resultKeys.contains "claude_response") then .error "KeyError: claude_response"
  else .ok ()

/-- The process exit status of `main()` given the keys of the result dict:
0 when the summary printing completes, 1 via the `except` handler's
`sys.exit(1)`. -/
def mainAltExitCode (resultKeys : List String) : Nat :=
  match mainAltTryBody resultKeys with
  | .ok _ => 0
  | .error _ => 1

/-! ### `_get_pinellas_column_mapping`: the schema mapper -/

/-- `columns_lower = {col.lower(): col for col in columns}`: a dict
comprehension, so a later column with the same lowercase form overwrites
the earlier one's value while keeping its position. -/
def lowerColumnDict (columns : List String) : List (String × String) :=
  columns.foldl (fun d c => storeAssoc d (pyLower c) c) []

/-- The inner loop of one pattern: the first dict entry (in insertion
order) whose lowercase key satisfies the condition yields its original
column name. -/
def firstColMatching (cond : String → Bool) : List (String × String) → Option String
  | [] => none
  | (kl, ka) :: rest => if cond kl then some ka else firstColMatching cond rest

/-- The outer loop over the ordered pattern list: the first pattern with
any matching column wins (then both loops break). -/
def findMappedColumn (pats : List String) (cond : String → String → Bool)
    (d : List (String × String)) : Option String :=
  match pats with
  | [] => none
  | p :: ps =>
    match firstColMatching (cond p) d with
    | some v => some v
    | none => findMappedColumn ps cond d

/-- The ordered address patterns. -/
def addressPatterns : List String :=
  ["address", "street", "addr", "street_address", "address1", "address_1"]

/-- The ordered city patterns. -/
def cityPatterns : List String := ["city", "mailing_city", "mail_city", "town"]

/-- The ordered state patterns. -/
def statePatterns : List String := ["state", "st", "province"]

/-- The ordered zip patterns. -/
def zipPatterns : List String :=
  ["zip", "zipcode", "zip_code", "postal", "postalcode", "postal_code"]

/-- Address/city/zip matching: plain `pattern in col_lower`. -/
def plainCond (p kl : String) : Bool := pyIn p kl

/-- State matching: `col_lower == pattern or (pattern in col_lower and
'estate' not in col_lower)`. -/
def stateCond (p kl : String) : Bool :=
  kl == p || (pyIn p kl && !(pyIn "estate" kl))

/-- The discovered column mapping for the Pinellas table. -/
structure ColumnMapping where
  address : Option String
  city : Option String
  state : Option String
  zip : Option String

/-- `_get_pinellas_column_mapping`, on the introspected ordered column
list (the cursor plumbing around it is the database collaborator). -/
def getPinellasColumnMapping (columns : List String) : ColumnMapping :=
  let d := lowerColumnDict columns
  { address := findMappedColumn addressPatterns plainCond d
    city := findMappedColumn cityPatterns plainCond d
    state := findMappedColumn statePatterns stateCond d
    zip := findMappedColumn zipPatterns plainCond d }

/-- A column satisfies some pattern of a field's list (the claim's
"field-like" notion, read off the same pattern lists the mapper uses). -/
def matchesSomePattern (pats : List String) (cond : String → String → Bool)
    (col : String) : Bool :=
  pats.any (fun p => cond p (pyLower col))

/-- Address-like column name. -/
def addressLike (col : String) : Bool := matchesSomePattern addressPatterns plainCond col

/-- City-like column name. -/
def cityLike (col : String) : Bool := matchesSomePattern cityPatterns plainCond col

/-- State-like column name. -/
def stateLike (col : String) : Bool := matchesSomePattern statePatterns stateCond col

/-- Zip-like column name. -/
def zipLike (col : String) : Bool := matchesSomePattern zipPatterns plainCond col

/-! ### `get_pinellas_matches`: street-address decomposition -/

/-- The fixed street-type vocabulary. -/
def streetTypes : List String :=
  ["street", "st", "avenue", "ave", "road", "rd", "drive", "dr",
   "lane", "ln", "court", "ct", "circle", "cir", "boulevard", "blvd",
   "way", "place", "pl", "terrace", "ter", "parkway", "pkwy",
   "highway", "hwy", "trail", "trl", "plaza", "plz", "alley", "aly",
   "loop", "square", "sq", "crossing", "xing", "run", "point", "pt",
   "pike", "row", "path", "walk", "commons", "green", "crescent", "cres"]

/-- Python `s.split(None, 1)` on an already-stripped character list: the
first whitespace-free token and the remainder after the separating
whitespace run; `none` when there are fewer than two parts. -/
def pySplitOnceStripped (cs : List Char) : Option (List Char × List Char) :=
  let tok := cs.takeWhile (fun c => !pyIsSpaceChar c)
  let rest := (cs.drop tok.length).dropWhile pyIsSpaceChar
  if tok.isEmpty || rest.isEmpty then none else some (tok, rest)

/-- `re.match(r'^(\d+)\s+(.+)$', str(address1).strip())`, then the
`split(None, 1)` + `isdigit()` fallback.  Without `DOTALL`, `(.+)$`
requires the remainder to be newline-free; the fallback has no such
restriction, which is the only input class where the two differ. -/
def extractStreetNumber (address1 : String) : Option (String × String) :=
  let cs := pyStripList address1.toList
  let ds := cs.takeWhile isDigitB
  let afterDs := cs.drop ds.length
  let ws := afterDs.takeWhile pyIsSpaceChar
  let nameCs := afterDs.drop ws.length
  if !ds.isEmpty && !ws.isEmpty && !nameCs.isEmpty && nameCs.all (fun c => !(c == '\n')) then
    some (String.mk ds, String.mk nameCs)
  else
    match pySplitOnceStripped cs with
    | some (tok, rest) =>
      if tok.all isDigitB then some (String.mk tok, String.mk rest) else none
    | none => none

/-- Python `s.split()`: whitespace-run splitting, dropping empty tokens. -/
def splitWordsAux (acc : List Char) : List Char → List (List Char)
  | [] => if acc.isEmpty then [] else [acc.reverse]
  | c :: rest =>
    if pyIsSpaceChar c then
      if acc.isEmpty then splitWordsAux [] rest
      else acc.reverse :: splitWordsAux [] rest
    else splitWordsAux (c :: acc) rest

/-- Python `s.split()` as strings. -/
def pySplitWords (s : String) : List String :=
  (splitWordsAux [] s.toList).map String.mk

/-- Python `s.rstrip('.')`: drop every trailing period. -/
def rstripDots (s : String) : String :=
  String.mk (s.toList.reverse.dropWhile (fun c => c == '.')).reverse

/-- The core-street-name step: with more than one token, a final token
found in `streetTypes` (lowercased, trailing periods removed) is dropped
and the rest rejoined with single spaces; otherwise the full remainder is
kept as-is. -/
def streetNameCore (streetNameFull : String) : String :=
  let parts := pySplitWords (pyStrip streetNameFull)
  if parts.length > 1 then
    if streetTypes.contains (rstripDots (pyLower (parts.getLastD ""))) then
      String.intercalate " " parts.dropLast
    else streetNameFull
  else streetNameFull

/-- The full decomposition of `address1` inside `get_pinellas_matches`:
street number, full street name, core street name; `none` when no leading
street number can be extracted (the caller then skips the Pinellas
lookup). -/
def streetDecompose (address1 : String) : Option (String × String × String) :=
  match extractStreetNumber address1 with
  | none => none
  | some (num, full) => some (num, full, streetNameCore full)

/-! ### `_check_exact_match`: the exact-match verifier -/

/-- The verifier's column sniffing state. -/
structure SniffedCols where
  address : Option String
  city : Option String
  state : Option String
  zip : Option String

/-- The key loop of `_check_exact_match`: an `if/elif` chain over the
sample record's keys in order, binding each category to its first
matching key.  A key matching an earlier category never reaches a later
one. -/
def sniffFold (acc : SniffedCols) : List String → SniffedCols
  | [] => acc
  | key :: rest =>
    let kl := pyLower key
    let acc2 :=
      if pyIn "address" kl || pyIn "street" kl then
        if acc.address = none then { acc with address := some key } else acc
      else if pyIn "city" kl || pyIn "town" kl then
        if acc.city = none then { acc with city := some key } else acc
      else if kl == "state" || kl == "st" then
        if acc.state = none then { acc with state := some key } else acc
      else if pyIn "zip" kl || pyIn "postal" kl then
        if acc.zip = none then { acc with zip := some key } else acc
      else acc
    sniffFold acc2 rest

/-- Column sniffing over the first internal candidate's keys. -/
def sniffColumns (sample : CandRec) : SniffedCols :=
  sniffFold ⟨none, none, none, none⟩ (sample.map (fun e => e.1))

/-- `str(x).strip().lower()`. -/
def normField (s : String) : String := pyLower (pyStrip s)

/-- An internal record's field under a sniffed column:
`str(record.get(col, '')).strip().lower() if col else ''`. -/
def internalField (r : CandRec) (col : Option String) : String :=
  match col with
  | some c => normField (pyStr (pyGetD r c (.str "")))
  | none => ""

/-- The candidate loop: first record whose four sniffed fields equal the
precomputed golden fields. -/
def exactLoop (gAddr gCity gState gZip : String) (cols : SniffedCols) :
    List CandRec → Bool × Option CandRec
  | [] => (false, none)
  | r :: rs =>
    if internalField r cols.address == gAddr && internalField r cols.city == gCity &&
       internalField r cols.state == gState && internalField r cols.zip == gZip then
      (true, some r)
    else exactLoop gAddr gCity gState gZip cols rs

/-- `_check_exact_match`: `(is_exact_match, matched_record)`. -/
def checkExactMatch (golden : CandRec) (internalMatches : List CandRec) :
    Bool × Option CandRec :=
  match internalMatches with
  | [] => (false, none)
  | sample :: _ =>
    let cols := sniffColumns sample
    exactLoop (normField (pyStr (pyGetD golden "address1" (.str ""))))
      (normField (pyStr (pyGetD golden "Mailing City" (.str ""))))
      (normField (pyStr (pyGetD golden "state" (.str ""))))
      (normField (pyStr (pyGetD golden "zipcode" (.str ""))))
      cols internalMatches

/-- The claim-side matching predicate: all four sniffed internal fields
equal the corresponding golden fields after whitespace trimming and
lowercasing (an unsniffed column and an absent golden field both read as
the empty string, so empty equals empty). -/
def recordMatchesGolden (golden : CandRec) (cols : SniffedCols) (r : CandRec) : Prop :=
  internalField r cols.address = normField (pyStr (pyGetD golden "address1" (.str ""))) ∧
  internalField r cols.city = normField (pyStr (pyGetD golden "Mailing City" (.str ""))) ∧
  internalField r cols.state = normField (pyStr (pyGetD golden "state" (.str ""))) ∧
  internalField r cols.zip = normField (pyStr (pyGetD golden "zipcode" (.str "")))

/-! ### Helper lemmas: the sorted merged ranking -/

theorem scoreDescB_trans (a b c : SelRef × CandRec) :
    scoreDescB a b = true → scoreDescB b c = true → scoreDescB a c = true := by
  simp only [scoreDescB, decide_eq_true_eq]
  exact fun h1 h2 => le_trans h2 h1

theorem scoreDescB_total (a b : SelRef × CandRec) :
    (scoreDescB a b || scoreDescB b a) = true := by
  simp only [scoreDescB, Bool.or_eq_true, decide_eq_true_eq]
  exact le_total (scoreOf b.2) (scoreOf a.2)

theorem insertDescending_perm (x : SelRef × CandRec) (l : List (SelRef × CandRec)) :
    (insertDescending x l).Perm (x :: l) := by
  induction l with
  | nil => rfl
  | cons y ys ih =>
    unfold insertDescending
    split
    · exact ((ih.cons y).trans (List.Perm.swap x y ys))
    · rfl

theorem sortMatches_perm (l : List (SelRef × CandRec)) : (sortMatches l).Perm l := by
  induction l with
  | nil => rfl
  | cons a as ih =>
    have h1 : sortMatches (a :: as) = insertDescending a (sortMatches as) := rfl
    rw [h1]
    exact (insertDescending_perm a (sortMatches as)).trans (ih.cons a)

theorem insertDescending_pairwise {x : SelRef × CandRec} {l : List (SelRef × CandRec)}
    (h : List.Pairwise (fun a b => scoreDescB a b = true) l) :
    List.Pairwise (fun a b => scoreDescB a b = true) (insertDescending x l) := by
  induction l with
  | nil => simp [insertDescending]
  | cons y ys ih =>
    obtain ⟨hy, hys⟩ := List.pairwise_cons.mp h
    unfold insertDescending
    split
    · rename_i hlt
      refine List.pairwise_cons.mpr ⟨?_, ih hys⟩
      intro z hz
      have hz2 : z ∈ x :: ys := (insertDescending_perm x ys).mem_iff.mp hz
      rcases List.mem_cons.mp hz2 with he | ht
      · subst he
        simp only [scoreDescB, decide_eq_true_eq]
        exact le_of_lt hlt
      · exact hy z ht
    · rename_i hge
      refine List.pairwise_cons.mpr ⟨?_, h⟩
      intro z hz
      rcases List.mem_cons.mp hz with he | ht
      · subst he
        simp only [scoreDescB, decide_eq_true_eq]
        exact le_of_not_lt hge
      · have h1 := hy z ht
        simp only [scoreDescB, decide_eq_true_eq] at h1 ⊢
        exact le_trans h1 (le_of_not_lt hge)

theorem sortMatches_pairwise (l : List (SelRef × CandRec)) :
    List.Pairwise (fun a b => scoreDescB a b = true) (sortMatches l) := by
  induction l with
  | nil => simp [sortMatches]
  | cons a as ih => exact insertDescending_pairwise ih

theorem sortMatches_head_max {l : List (SelRef × CandRec)} {p : SelRef × CandRec}
    {rest : List (SelRef × CandRec)} (h : sortMatches l = p :: rest) :
    ∀ x ∈ l, scoreOf x.2 ≤ scoreOf p.2 := by
  intro x hx
  have hx2 : x ∈ p :: rest := by
    rw [← h]
    exact ((sortMatches_perm l).mem_iff).mpr hx
  rcases List.mem_cons.mp hx2 with he | ht
  · rw [he]
  · have hpw := sortMatches_pairwise l
    rw [h] at hpw
    have := (List.pairwise_cons.mp hpw).1 x ht
    simpa [scoreDescB] using this

theorem mem_tagGs_fst {l : List CandRec} :
    ∀ {k : Nat} {p : SelRef × CandRec}, p ∈ tagGs k l →
      ∃ n, p.1 = SelRef.gsAt n ∧ n < k + l.length := by
  induction l with
  | nil => intro k p h; simp [tagGs] at h
  | cons r rs ih =>
    intro k p h
    rcases List.mem_cons.mp h with he | ht
    · exact ⟨k, by rw [he], by simp⟩
    · obtain ⟨n, h1, h2⟩ := ih ht
      exact ⟨n, h1, by simp only [List.length_cons]; omega⟩

theorem mem_tagInternal_fst {l : List CandRec} :
    ∀ {k : Nat} {p : SelRef × CandRec}, p ∈ tagInternal k l →
      ∃ n, p.1 = SelRef.intAt n ∧ n < k + l.length := by
  induction l with
  | nil => intro k p h; simp [tagInternal] at h
  | cons r rs ih =>
    intro k p h
    rcases List.mem_cons.mp h with he | ht
    · exact ⟨k, by rw [he], by simp⟩
    · obtain ⟨n, h1, h2⟩ := ih ht
      exact ⟨n, h1, by simp only [List.length_cons]; omega⟩

theorem exists_tag_gs {l : List CandRec} :
    ∀ {k : Nat} {c : CandRec}, c ∈ l → ∃ n, (SelRef.gsAt n, c) ∈ tagGs k l := by
  induction l with
  | nil => intro k c h; simp at h
  | cons r rs ih =>
    intro k c h
    rcases List.mem_cons.mp h with he | ht
    · exact ⟨k, by rw [he]; exact List.mem_cons_self _ _⟩
    · obtain ⟨n, hn⟩ := ih ht
      exact ⟨n, List.mem_cons_of_mem _ hn⟩

theorem exists_tag_internal {l : List CandRec} :
    ∀ {k : Nat} {c : CandRec}, c ∈ l → ∃ n, (SelRef.intAt n, c) ∈ tagInternal k l := by
  induction l with
  | nil => intro k c h; simp at h
  | cons r rs ih =>
    intro k c h
    rcases List.mem_cons.mp h with he | ht
    · exact ⟨k, by rw [he]; exact List.mem_cons_self _ _⟩
    · obtain ⟨n, hn⟩ := ih ht
      exact ⟨n, List.mem_cons_of_mem _ hn⟩

theorem exists_tagged {gs ints : List CandRec} {c : CandRec} (h : c ∈ gs ++ ints) :
    ∃ s, (s, c) ∈ taggedMatches gs ints := by
  rcases List.mem_append.mp h with hg | hi
  · obtain ⟨n, hn⟩ := exists_tag_gs (k := 0) hg
    exact ⟨SelRef.gsAt n, List.mem_append_left _ hn⟩
  · obtain ⟨n, hn⟩ := exists_tag_internal (k := 0) hi
    exact ⟨SelRef.intAt n, List.mem_append_right _ hn⟩

theorem tagged_fst_cases {gs ints : List CandRec} {p : SelRef × CandRec}
    (h : p ∈ taggedMatches gs ints) :
    (∃ n, p.1 = SelRef.gsAt n ∧ n < gs.length) ∨
    (∃ n, p.1 = SelRef.intAt n ∧ n < ints.length) := by
  rcases List.mem_append.mp h with hg | hi
  · left; simpa using mem_tagGs_fst hg
  · right; simpa using mem_tagInternal_fst hi

theorem tagGs_length (l : List CandRec) : ∀ k, (tagGs k l).length = l.length := by
  induction l with
  | nil => intro k; rfl
  | cons r rs ih => intro k; simp [tagGs, ih]

theorem tagInternal_length (l : List CandRec) : ∀ k, (tagInternal k l).length = l.length := by
  induction l with
  | nil => intro k; rfl
  | cons r rs ih => intro k; simp [tagInternal, ih]

theorem sortMatches_ne_nil {gs ints : List CandRec} (h : gs ++ ints ≠ []) :
    sortMatches (taggedMatches gs ints) ≠ [] := by
  intro hc
  have hlen := (sortMatches_perm (taggedMatches gs ints)).length_eq
  rw [hc] at hlen
  have : gs.length + ints.length = 0 := by
    have := hlen.symm
    simpa [taggedMatches, tagGs_length, tagInternal_length] using this
  exact h (by
    have h1 : gs = [] := List.length_eq_zero.mp (by omega)
    have h2 : ints = [] := List.length_eq_zero.mp (by omega)
    simp [h1, h2])

theorem attachAnalyses_length (keyPre : String) (an : List (String × PyVal)) :
    ∀ (i : Nat) (l : List CandRec), (attachAnalyses keyPre an i l).length = l.length := by
  intro i l
  induction l generalizing i with
  | nil => rfl
  | cons r rs ih => simp [attachAnalyses, ih]

theorem getD_getElem_mem {l : List CandRec} {n : Nat} (h : n < l.length) :
    (l[n]?).getD [] ∈ l := by
  rw [List.getElem?_eq_getElem h]
  exact List.getElem_mem h

/-! ### Helper lemmas: the review step -/

theorem selectRecommended_inv {src : PyVal} {ix : PyIndex}
    {gsLen intLen allLen : Nat} {sel : Option SelRef}
    (h : selectRecommended src ix gsLen intLen allLen = .ok sel) :
    (∀ n, sel = some (.gsAt n) → n < gsLen) ∧
    (∀ n, sel = some (.intAt n) → n < intLen) ∧
    (sel = some .topMerged → 0 < allLen) ∧
    (sel = none → allLen = 0) := by
  unfold selectRecommended at h
  split at h
  · rename_i hcond
    cases ix with
    | intIx m =>
      simp only [Except.ok.injEq] at h
      subst h
      refine ⟨?_, by simp, by simp, by simp⟩
      intro n hn
      simp only [Option.some.injEq, SelRef.gsAt.injEq] at hn
      subst hn
      simp only [Bool.and_eq_true, decide_eq_true_eq] at hcond
      obtain ⟨⟨_, h0⟩, hlt⟩ := hcond
      have h0' : (0 : ℚ) ≤ (m : ℚ) := by simpa [ixVal] using h0
      have hlt' : (m : ℚ) < (gsLen : ℚ) := by simpa [ixVal] using hlt
      have hm : (0 : Int) ≤ m := by exact_mod_cast h0'
      have h2 : ((m.toNat : Int) : ℚ) < (gsLen : ℚ) := by
        rw [Int.toNat_of_nonneg hm]; exact hlt'
      exact_mod_cast h2
    | floatIx q => simp at h
  · split at h
    · rename_i hcond
      cases ix with
      | intIx m =>
        simp only [Except.ok.injEq] at h
        subst h
        refine ⟨by simp, ?_, by simp, by simp⟩
        intro n hn
        simp only [Option.some.injEq, SelRef.intAt.injEq] at hn
        subst hn
        simp only [Bool.and_eq_true, decide_eq_true_eq] at hcond
        obtain ⟨⟨_, h0⟩, hlt⟩ := hcond
        have h0' : (0 : ℚ) ≤ (m : ℚ) := by simpa [ixVal] using h0
        have hlt' : (m : ℚ) < (intLen : ℚ) := by simpa [ixVal] using hlt
        have hm : (0 : Int) ≤ m := by exact_mod_cast h0'
        have h2 : ((m.toNat : Int) : ℚ) < (intLen : ℚ) := by
          rw [Int.toNat_of_nonneg hm]; exact hlt'
        exact_mod_cast h2
      | floatIx q => simp at h
    · split at h
      · rename_i hall
        simp only [Except.ok.injEq] at h
        subst h
        exact ⟨by simp, by simp, fun _ => hall, by simp⟩
      · rename_i hall
        simp only [Except.ok.injEq] at h
        subst h
        exact ⟨by simp, by simp, by simp, fun _ => by omega⟩

theorem reviewTryBody_bestSel_inv {outcome : ClientOutcome}
    {allM : List (SelRef × CandRec)} {gs ints : List CandRec} {r : ClaudeReview}
    (h : reviewTryBody outcome allM gs ints = .ok r) :
    (∀ n, r.bestSel = some (.gsAt n) → n < gs.length) ∧
    (∀ n, r.bestSel = some (.intAt n) → n < ints.length) ∧
    (r.bestSel = some .topMerged → allM ≠ []) ∧
    (r.bestSel = none → allM = []) := by
  unfold reviewTryBody at h
  split at h
  · exact absurd h (by simp)
  · split at h
    · exact absurd h (by simp)
    · split at h
      · rename_i fields heq
        split at h
        · exact absurd h (by simp)
        · rename_i ix hix
          split at h
          · exact absurd h (by simp)
          · rename_i sel hsel
            split at h
            · exact absurd h (by simp)
            · split at h
              · exact absurd h (by simp)
              · simp only [Except.ok.injEq] at h
                subst h
                have hinv := selectRecommended_inv hsel
                refine ⟨hinv.1, hinv.2.1, fun ht => ?_, fun hn => ?_⟩
                · have := hinv.2.2.1 ht
                  intro hc
                  rw [hc] at this
                  simp at this
                · have := hinv.2.2.2 hn
                  exact List.length_eq_zero.mp this
      · split at h
        · exact absurd h (by simp)
        · rename_i p ps
          simp only [Except.ok.injEq] at h
          subst h
          exact ⟨by simp, by simp, fun _ => by simp, by simp⟩

theorem review_bestSel_inv {outcome : ClientOutcome}
    {allM : List (SelRef × CandRec)} {gs ints : List CandRec} {r : ClaudeReview}
    (h : reviewFuzzyMatchesWithClaude outcome allM gs ints = .ok r) :
    (∀ n, r.bestSel = some (.gsAt n) → n < gs.length) ∧
    (∀ n, r.bestSel = some (.intAt n) → n < ints.length) ∧
    (r.bestSel = some .topMerged → allM ≠ []) ∧
    (r.bestSel = none → allM = []) := by
  unfold reviewFuzzyMatchesWithClaude at h
  split at h
  · rename_i r0 htb
    simp only [Except.ok.injEq] at h
    subst h
    exact reviewTryBody_bestSel_inv htb
  · split at h
    · exact absurd h (by simp)
    · rename_i p ps
      simp only [Except.ok.injEq] at h
      subst h
      exact ⟨by simp, by simp, fun _ => by simp, by simp⟩

theorem review_ok_of_tryBody {outcome : ClientOutcome}
    {allM : List (SelRef × CandRec)} {gs ints : List CandRec}
    (hne : allM ≠ [])
    (hsel : ∀ r, reviewTryBody outcome allM gs ints = .ok r → r.bestSel = some .topMerged) :
    ∃ rev, reviewFuzzyMatchesWithClaude outcome allM gs ints = .ok rev ∧
      rev.bestSel = some .topMerged := by
  unfold reviewFuzzyMatchesWithClaude
  cases htb : reviewTryBody outcome allM gs ints with
  | ok r0 => exact ⟨r0, rfl, hsel r0 htb⟩
  | error e =>
    cases allM with
    | nil => exact absurd rfl hne
    | cons p ps => exact ⟨_, rfl, rfl⟩

/-! ### Claim theorems -/

/-- Claim C9: when candidate retrieval reports `total_matches == 0`,
`match_address` returns the fixed no-match result — `match_found=false`,
the fixed "no matches" reasoning, empty candidate lists — and issues no
adjudication request to the reasoning-model client
(`adjudicationCalled = false`). -/
theorem claimC9 (gs ints : List CandRec) (outcome : ClientOutcome) (thr : ℚ) :
    matchAddress gs ints 0 outcome thr =
      .ok { matchFound := false
            bestMatch := none
            gsMatches := []
            intMatches := []
            hasGoldenSource := false
            hasInternal := false
            confidence := none
            reasoning := .str "No addresses found matching the search criteria with sufficient similarity in either table."
            businessRuleException := none
            confidenceThreshold := none
            candidatesSearched := 0
            searchMethod := "fuzzy_match"
            claudeReview := none
            adjudicationCalled := false } := rfl

/-- The golden-source candidate of the C1 failing input: similarity 50. -/
def c1GoldenRec : CandRec :=
  [("MasterAddress", .str "100 Oak St"), ("_similarity_score", .float 50),
   ("_source_type", .str "golden_source"), ("_source_table", .str "addresses")]

/-- The internal candidate of the C1 failing input: similarity 90, the
top-scoring merged candidate. -/
def c1InternalRec : CandRec :=
  [("MasterAddress", .str "100 Oak Street"), ("_similarity_score", .float 90),
   ("_source_type", .str "internal"), ("_source_table", .str "internal_addresses")]

/-- Claim C1 is violated by the code: on a response text none of the three
parsing tiers can recover a JSON object from ("I could not find a
match.", which decodes by no tier), the raw-text sentinel is itself a
dict, so the review step takes the parsed-verdict path with defaulted
fields (`best_match_source='golden_source'`, `best_match_index=1`) instead
of the documented unavailable-fallback: the returned best match is the
first golden-source candidate (similarity 50), not the top-scoring merged
candidate (the internal one at 90), while the returned confidence is 90 —
the top candidate's score, not the chosen record's. -/
theorem claimC1CodeBug :
    parseClaudeResponse "I could not find a match." =
      .obj [("raw_text", .str "I could not find a match."),
            ("note", .str "Could not parse JSON from Claude response")] ∧
    (matchAddress [c1GoldenRec] [c1InternalRec] 2
        (.responds "I could not find a match.") 80).map
      (fun r => (r.matchFound, r.bestMatch, r.confidence)) =
      .ok (true, some c1GoldenRec, some (.float 90)) ∧
    scoreOf c1GoldenRec = 50 ∧ scoreOf c1InternalRec = 90 ∧
    c1InternalRec ∈ [c1GoldenRec] ++ [c1InternalRec] ∧
    scoreOf c1GoldenRec < scoreOf c1InternalRec := by
  refine ⟨rfl, by rfl, by decide, by decide, by simp, by decide⟩

/-- Claim C3 is violated by the code: whatever result `match_address`
returns, neither of its two result dicts carries the key
`claude_response` that `main()` subscripts, so the summary printing always
dies with `KeyError`, the `except` handler runs, and the process exits 1
instead of printing the match summary and exiting 0. -/
theorem claimC3CodeBug (gs ints : List CandRec) (total : Nat)
    (outcome : ClientOutcome) (thr : ℚ) (res : MatchOutput)
    (_hok : matchAddress gs ints total outcome thr = .ok res) :
    mainAltExitCode (matchResultKeys res) = 1 := by
  unfold mainAltExitCode mainAltTryBody matchResultKeys
  by_cases h : res.matchFound = true
  · rw [if_pos h]; rfl
  · rw [if_neg h]; rfl

/-- Witness for C3: a concrete no-match run reaches the `KeyError` exit. -/
theorem claimC3CodeBugWitness :
    ∃ res, matchAddress [] [] 0 (.raises "boom") 80 = .ok res ∧
      mainAltExitCode (matchResultKeys res) = 1 :=
  ⟨_, rfl, claimC3CodeBug [] [] 0 (.raises "boom") 80 _ rfl⟩

/-- The exact-match comparison as the loop tests it, in `Bool` form. -/
def exactLoopPred (golden : CandRec) (cols : SniffedCols) (r : CandRec) : Bool :=
  internalField r cols.address == normField (pyStr (pyGetD golden "address1" (.str ""))) &&
  internalField r cols.city == normField (pyStr (pyGetD golden "Mailing City" (.str ""))) &&
  internalField r cols.state == normField (pyStr (pyGetD golden "state" (.str ""))) &&
  internalField r cols.zip == normField (pyStr (pyGetD golden "zipcode" (.str "")))

theorem exactLoopPred_iff (golden : CandRec) (cols : SniffedCols) (r : CandRec) :
    exactLoopPred golden cols r = true ↔ recordMatchesGolden golden cols r := by
  simp [exactLoopPred, recordMatchesGolden, and_assoc]

theorem exactLoop_eq_find (golden : CandRec) (cols : SniffedCols) :
    ∀ l : List CandRec,
      exactLoop (normField (pyStr (pyGetD golden "address1" (.str ""))))
        (normField (pyStr (pyGetD golden "Mailing City" (.str ""))))
        (normField (pyStr (pyGetD golden "state" (.str ""))))
        (normField (pyStr (pyGetD golden "zipcode" (.str "")))) cols l =
      ((l.find? (exactLoopPred golden cols)).isSome, l.find? (exactLoopPred golden cols)) := by
  intro l
  induction l with
  | nil => rfl
  | cons r rs ih =>
    unfold exactLoop
    by_cases h : exactLoopPred golden cols r = true
    · have hb : (internalField r cols.address == normField (pyStr (pyGetD golden "address1" (.str ""))) &&
          internalField r cols.city == normField (pyStr (pyGetD golden "Mailing City" (.str ""))) &&
          internalField r cols.state == normField (pyStr (pyGetD golden "state" (.str ""))) &&
          internalField r cols.zip == normField (pyStr (pyGetD golden "zipcode" (.str "")))) = true := by
        simpa [exactLoopPred] using h
      rw [if_pos hb, List.find?_cons_of_pos _ h]
      rfl
    · have hb : ¬ (internalField r cols.address == normField (pyStr (pyGetD golden "address1" (.str ""))) &&
          internalField r cols.city == normField (pyStr (pyGetD golden "Mailing City" (.str ""))) &&
          internalField r cols.state == normField (pyStr (pyGetD golden "state" (.str ""))) &&
          internalField r cols.zip == normField (pyStr (pyGetD golden "zipcode" (.str "")))) = true := by
        simpa [exactLoopPred] using h
      rw [if_neg hb, List.find?_cons_of_neg _ (by simpa using h)]
      exact ih

/-- The golden record of the C7 example. -/
def c7Golden : CandRec :=
  [("address1", .str "100 Main St"), ("Mailing City", .str "Clearwater"),
   ("state", .str "FL"), ("zipcode", .str "33755")]

/-- The internal candidate of the C7 example: same four fields under
differently named columns and different casing. -/
def c7Internal : CandRec :=
  [("Street", .str "100 MAIN ST"), ("City", .str "CLEARWATER"),
   ("St", .str "fl"), ("Zip", .str "33755")]

/-- Claim C7: the verifier reports `is_exact_match=true` exactly when some
internal candidate's sniffed address/city/state/zip fields equal the
golden record's `address1` / `Mailing City` / `state` / `zipcode` after
whitespace trimming and lowercasing (unsniffed or absent fields read as
empty strings, so empty equals empty); the matched record is the first
such candidate in list order; and in particular the golden record
`(address1 "100 Main St", state "FL", ...)` exactly matches the internal
candidate `(Street "100 MAIN ST", St "fl", ...)` with matching city/zip,
case-different. -/
theorem claimC7 :
    (∀ (g : CandRec) (sample : CandRec) (rest : List CandRec),
      ((checkExactMatch g (sample :: rest)).1 = true ↔
        ∃ r ∈ sample :: rest, recordMatchesGolden g (sniffColumns sample) r)) ∧
    (∀ (g : CandRec) (sample : CandRec) (rest : List CandRec) (r : CandRec),
      (checkExactMatch g (sample :: rest)).2 = some r →
        recordMatchesGolden g (sniffColumns sample) r ∧
        ∃ pre post, sample :: rest = pre ++ r :: post ∧
          ∀ x ∈ pre, ¬ recordMatchesGolden g (sniffColumns sample) x) ∧
    (∀ g : CandRec, checkExactMatch g [] = (false, none)) ∧
    checkExactMatch c7Golden [c7Internal] = (true, some c7Internal) := by
  refine ⟨?_, ?_, fun g => rfl, by rfl⟩
  · intro g sample rest
    have h := exactLoop_eq_find g (sniffColumns sample) (sample :: rest)
    have e : checkExactMatch g (sample :: rest) =
        exactLoop (normField (pyStr (pyGetD g "address1" (.str ""))))
          (normField (pyStr (pyGetD g "Mailing City" (.str ""))))
          (normField (pyStr (pyGetD g "state" (.str ""))))
          (normField (pyStr (pyGetD g "zipcode" (.str ""))))
          (sniffColumns sample) (sample :: rest) := rfl
    rw [e, h]
    simp only [List.find?_isSome]
    constructor
    · rintro ⟨x, hx, hp⟩
      exact ⟨x, hx, (exactLoopPred_iff g (sniffColumns sample) x).mp hp⟩
    · rintro ⟨x, hx, hp⟩
      exact ⟨x, hx, (exactLoopPred_iff g (sniffColumns sample) x).mpr hp⟩
  · intro g sample rest r hr
    have h := exactLoop_eq_find g (sniffColumns sample) (sample :: rest)
    have e : checkExactMatch g (sample :: rest) =
        exactLoop (normField (pyStr (pyGetD g "address1" (.str ""))))
          (normField (pyStr (pyGetD g "Mailing City" (.str ""))))
          (normField (pyStr (pyGetD g "state" (.str ""))))
          (normField (pyStr (pyGetD g "zipcode" (.str ""))))
          (sniffColumns sample) (sample :: rest) := rfl
    rw [e, h] at hr
    simp only at hr
    obtain ⟨hpr, pre, post, hsplit, hpre⟩ := List.find?_eq_some.mp hr
    refine ⟨(exactLoopPred_iff g (sniffColumns sample) r).mp hpr, pre, post, hsplit, ?_⟩
    intro x hx hmx
    have := hpre x hx
    rw [Bool.not_eq_eq_eq_not, Bool.not_true] at this
    exact absurd ((exactLoopPred_iff g (sniffColumns sample) x).mpr hmx) (by simp [this])

/-- Witness for C7: the concrete conjunct derived through the theorem. -/
theorem claimC7Witness : checkExactMatch c7Golden [c7Internal] = (true, some c7Internal) :=
  claimC7.2.2.2

/-- Claim C8: decomposing `"123 Oak Ln"` yields street number `"123"` and
core street name `"Oak"`; decomposing `"456 Grand Concourse"` (no
recognized suffix) keeps `"Grand Concourse"`; and in general, whenever
decomposition succeeds, a single trailing token of the fixed street-type
vocabulary — compared lowercased with trailing periods tolerated — is
stripped from a multi-token remainder, while a single-token remainder is
never stripped. -/
theorem claimC8 :
    streetDecompose "123 Oak Ln" = some ("123", "Oak Ln", "Oak") ∧
    streetDecompose "456 Grand Concourse" =
      some ("456", "Grand Concourse", "Grand Concourse") ∧
    (∀ (s num full core : String), streetDecompose s = some (num, full, core) →
      (let parts := pySplitWords (pyStrip full)
      (parts.length ≤ 1 → core = full) ∧
      (1 < parts.length →
        (rstripDots (pyLower (parts.getLastD "")) ∈ streetTypes →
          core = String.intercalate " " parts.dropLast) ∧
        (rstripDots (pyLower (parts.getLastD "")) ∉ streetTypes → core = full)))) := by
  refine ⟨rfl, rfl, ?_⟩
  intro s num full core hdec
  have hcore : core = streetNameCore full := by
    unfold streetDecompose at hdec
    cases hex : extractStreetNumber s with
    | none => rw [hex] at hdec; exact absurd hdec (by simp)
    | some nf =>
      rw [hex] at hdec
      simp only [Option.some.injEq] at hdec
      obtain ⟨_, _, h3⟩ := Prod.mk.injEq .. ▸ hdec
      exact (congrArg (fun t => t.2.2) hdec.symm).trans rfl
  subst hcore
  constructor
  · intro hle
    unfold streetNameCore
    rw [if_neg (by omega)]
  · intro hgt
    constructor
    · intro hmem
      unfold streetNameCore
      rw [if_pos (by omega), if_pos (by simpa [List.elem_iff] using hmem)]
    · intro hmem
      unfold streetNameCore
      rw [if_pos (by omega), if_neg (by simpa [List.elem_iff] using hmem)]

/-- Witness for C8: the general stripping law applied at `"123 Oak Ln"`. -/
theorem claimC8Witness :
    streetDecompose "123 Oak Ln" = some ("123", "Oak Ln", "Oak") ∧
    "Oak" = String.intercalate " " (pySplitWords (pyStrip "Oak Ln")).dropLast := by
  refine ⟨claimC8.1, ?_⟩
  have h := (claimC8.2.2 "123 Oak Ln" "123" "Oak Ln" "Oak" claimC8.1)
  exact (h.2 (by decide)).1 (by decide)

/-! ### Helper lemmas: the schema mapper -/

theorem storeAssoc_mem {β : Type} {d : List (String × β)} {k : String} {v : β}
    {e : String × β} (h : e ∈ storeAssoc d k v) : e ∈ d ∨ e = (k, v) := by
  unfold storeAssoc at h
  split at h
  · obtain ⟨e0, he0, hmap⟩ := List.mem_map.mp h
    by_cases hk : (e0.1 == k) = true
    · right
      rw [if_pos hk] at hmap
      have : e0.1 = k := by simpa using hk
      rw [← hmap, this]
    · left
      rw [if_neg hk] at hmap
      rwa [← hmap]
  · rcases List.mem_append.mp h with h1 | h1
    · exact Or.inl h1
    · right; simpa using h1

theorem storeAssoc_key_mem {β : Type} {d : List (String × β)} {k0 k : String} {v : β}
    (h : ∃ v0, (k0, v0) ∈ d) : ∃ v0, (k0, v0) ∈ storeAssoc d k v := by
  obtain ⟨v0, hv0⟩ := h
  unfold storeAssoc
  split
  · by_cases hk : k0 = k
    · exact ⟨v, List.mem_map.mpr ⟨(k0, v0), hv0, by simp [hk]⟩⟩
    · exact ⟨v0, List.mem_map.mpr ⟨(k0, v0), hv0, by simp [hk]⟩⟩
  · exact ⟨v0, List.mem_append_left _ hv0⟩

theorem storeAssoc_self_key {β : Type} (d : List (String × β)) (k : String) (v : β) :
    ∃ v0, (k, v0) ∈ storeAssoc d k v := by
  unfold storeAssoc
  split
  · rename_i hany
    obtain ⟨e0, he0, hk⟩ := List.any_eq_true.mp hany
    have : e0.1 = k := by simpa using hk
    exact ⟨v, List.mem_map.mpr ⟨e0, he0, by simp [hk, this]⟩⟩
  · exact ⟨v, List.mem_append_right _ (by simp)⟩

theorem lowerDict_fold_mem :
    ∀ (cols : List String) (d : List (String × String)) (e : String × String),
      e ∈ cols.foldl (fun d c => storeAssoc d (pyLower c) c) d →
      e ∈ d ∨ ∃ c ∈ cols, e = (pyLower c, c) := by
  intro cols
  induction cols with
  | nil => intro d e h; exact Or.inl h
  | cons c cs ih =>
    intro d e h
    rcases ih (storeAssoc d (pyLower c) c) e h with h1 | h1
    · rcases storeAssoc_mem h1 with h2 | h2
      · exact Or.inl h2
      · exact Or.inr ⟨c, by simp, h2⟩
    · obtain ⟨c0, hc0, he⟩ := h1
      exact Or.inr ⟨c0, List.mem_cons_of_mem _ hc0, he⟩

theorem lowerDict_fold_key :
    ∀ (cols : List String) (d : List (String × String)) (k : String),
      ((∃ v, (k, v) ∈ d) ∨ ∃ c ∈ cols, pyLower c = k) →
      ∃ v, (k, v) ∈ cols.foldl (fun d c => storeAssoc d (pyLower c) c) d := by
  intro cols
  induction cols with
  | nil =>
    intro d k h
    rcases h with h | h
    · exact h
    · simp at h
  | cons c cs ih =>
    intro d k h
    apply ih (storeAssoc d (pyLower c) c) k
    rcases h with h | ⟨c0, hc0, hk⟩
    · exact Or.inl (storeAssoc_key_mem h)
    · rcases List.mem_cons.mp hc0 with he | ht
      · subst he
        rw [← hk]
        exact Or.inl (storeAssoc_self_key d (pyLower c0) c0)
      · exact Or.inr ⟨c0, ht, hk⟩

theorem mem_lowerColumnDict {cols : List String} {e : String × String}
    (h : e ∈ lowerColumnDict cols) : ∃ c ∈ cols, e = (pyLower c, c) := by
  rcases lowerDict_fold_mem cols [] e h with h1 | h1
  · simp at h1
  · exact h1

theorem key_lowerColumnDict {cols : List String} {x : String} (h : x ∈ cols) :
    ∃ v, (pyLower x, v) ∈ lowerColumnDict cols :=
  lowerDict_fold_key cols [] (pyLower x) (Or.inr ⟨x, h, rfl⟩)

theorem firstColMatching_eq_some {cond : String → Bool} :
    ∀ {d : List (String × String)} {v : String}, firstColMatching cond d = some v →
      ∃ kl, (kl, v) ∈ d ∧ cond kl = true := by
  intro d
  induction d with
  | nil => intro v h; simp [firstColMatching] at h
  | cons e rest ih =>
    intro v h
    unfold firstColMatching at h
    split at h
    · rename_i hc
      simp only [Option.some.injEq] at h
      exact ⟨e.1, by rw [← h]; simp, hc⟩
    · obtain ⟨kl, h1, h2⟩ := ih h
      exact ⟨kl, List.mem_cons_of_mem _ h1, h2⟩

theorem firstColMatching_eq_none {cond : String → Bool} :
    ∀ {d : List (String × String)}, firstColMatching cond d = none →
      ∀ e ∈ d, cond e.1 = false := by
  intro d
  induction d with
  | nil => intro _ e he; simp at he
  | cons e0 rest ih =>
    intro h e he
    unfold firstColMatching at h
    split at h
    · simp at h
    · rename_i hc
      rcases List.mem_cons.mp he with he1 | he1
      · subst he1; simpa using hc
      · exact ih h e he1

theorem findMappedColumn_eq_some {cond : String → String → Bool}
    {d : List (String × String)} :
    ∀ {pats : List String} {v : String}, findMappedColumn pats cond d = some v →
      ∃ p ∈ pats, ∃ kl, (kl, v) ∈ d ∧ cond p kl = true := by
  intro pats
  induction pats with
  | nil => intro v h; simp [findMappedColumn] at h
  | cons p ps ih =>
    intro v h
    unfold findMappedColumn at h
    split at h
    · rename_i hfc
      simp only [Option.some.injEq] at h
      subst h
      obtain ⟨kl, h1, h2⟩ := firstColMatching_eq_some hfc
      exact ⟨p, by simp, kl, h1, h2⟩
    · obtain ⟨p0, hp0, kl, h1, h2⟩ := ih h
      exact ⟨p0, List.mem_cons_of_mem _ hp0, kl, h1, h2⟩

theorem findMappedColumn_eq_none {cond : String → String → Bool}
    {d : List (String × String)} :
    ∀ {pats : List String}, findMappedColumn pats cond d = none →
      ∀ p ∈ pats, ∀ e ∈ d, cond p e.1 = false := by
  intro pats
  induction pats with
  | nil => intro _ p hp; simp at hp
  | cons p0 ps ih =>
    intro h p hp e he
    unfold findMappedColumn at h
    split at h
    · simp at h
    · rename_i hfc
      rcases List.mem_cons.mp hp with he1 | he1
      · subst he1
        exact firstColMatching_eq_none hfc e he
      · exact ih h p he1 e he

/-- The generic binding lemma: when exactly one column of the table
satisfies a field's pattern list, the mapper's two nested first-match
loops bind the field to that column, whatever the casing, the column
order, and the pattern priorities. -/
theorem findMappedColumn_of_unique (pats : List String)
    (cond : String → String → Bool) (cols : List String) (a : String)
    (ha : a ∈ cols) (hl : matchesSomePattern pats cond a = true)
    (hu : ∀ x ∈ cols, matchesSomePattern pats cond x = true → x = a) :
    findMappedColumn pats cond (lowerColumnDict cols) = some a := by
  cases h : findMappedColumn pats cond (lowerColumnDict cols) with
  | some v =>
    obtain ⟨p, hp, kl, hmem, hcond⟩ := findMappedColumn_eq_some h
    obtain ⟨c0, hc0, he⟩ := mem_lowerColumnDict hmem
    have hv : v = c0 := by
      have := congrArg (fun e => e.2) he
      simpa using this
    have hkl : kl = pyLower c0 := by
      have := congrArg (fun e => e.1) he
      simpa using this
    subst hv
    have hlike : matchesSomePattern pats cond v = true := by
      unfold matchesSomePattern
      exact List.any_eq_true.mpr ⟨p, hp, by rwa [← hkl]⟩
    rw [hu v hc0 hlike]
  | none =>
    exfalso
    obtain ⟨v0, hv0⟩ := key_lowerColumnDict ha
    obtain ⟨p, hp, hcp⟩ := List.any_eq_true.mp hl
    have := findMappedColumn_eq_none h p hp (pyLower a, v0) hv0
    simp only at this
    rw [this] at hcp
    exact Bool.false_ne_true hcp

/-- Claim C2: for every column list containing exactly one address-like,
one city-like, one state-like and one zip-like column — likeness read off
the mapper's own ordered pattern lists, under any casing and any column
order — `_get_pinellas_column_mapping` binds all four canonical fields to
those columns. -/
theorem claimC2 (cols : List String) (a c s z : String)
    (haMem : a ∈ cols) (haLike : addressLike a = true)
    (haUniq : ∀ x ∈ cols, addressLike x = true → x = a)
    (hcMem : c ∈ cols) (hcLike : cityLike c = true)
    (hcUniq : ∀ x ∈ cols, cityLike x = true → x = c)
    (hsMem : s ∈ cols) (hsLike : stateLike s = true)
    (hsUniq : ∀ x ∈ cols, stateLike x = true → x = s)
    (hzMem : z ∈ cols) (hzLike : zipLike z = true)
    (hzUniq : ∀ x ∈ cols, zipLike x = true → x = z) :
    getPinellasColumnMapping cols = ⟨some a, some c, some s, some z⟩ := by
  show ColumnMapping.mk (findMappedColumn addressPatterns plainCond (lowerColumnDict cols))
      (findMappedColumn cityPatterns plainCond (lowerColumnDict cols))
      (findMappedColumn statePatterns stateCond (lowerColumnDict cols))
      (findMappedColumn zipPatterns plainCond (lowerColumnDict cols)) = _
  rw [findMappedColumn_of_unique addressPatterns plainCond cols a haMem haLike haUniq,
    findMappedColumn_of_unique cityPatterns plainCond cols c hcMem hcLike hcUniq,
    findMappedColumn_of_unique statePatterns stateCond cols s hsMem hsLike hsUniq,
    findMappedColumn_of_unique zipPatterns plainCond cols z hzMem hzLike hzUniq]

/-- Witness for C2: a four-column table in mixed casing and arbitrary
order binds all four fields. -/
theorem claimC2Witness :
    getPinellasColumnMapping ["ZIP1", "address1", "State", "City"] =
      ⟨some "address1", some "City", some "State", some "ZIP1"⟩ := by
  refine claimC2 ["ZIP1", "address1", "State", "City"] "address1" "City" "State" "ZIP1"
    ?_ ?_ ?_ ?_ ?_ ?_ ?_ ?_ ?_ ?_ ?_ ?_ <;> decide

/-- The head of the sorted merged ranking dominates every candidate of
both source lists. -/
theorem sorted_head_ge {gs ints : List CandRec} {p : SelRef × CandRec}
    {rest : List (SelRef × CandRec)}
    (hs : sortMatches (taggedMatches gs ints) = p :: rest) :
    ∀ x ∈ gs ++ ints, scoreOf x ≤ scoreOf p.2 := by
  intro x hx
  obtain ⟨tag, htag⟩ := exists_tagged hx
  have := sortMatches_head_max hs (tag, x) htag
  simpa using this

/-- Claim C5: whenever at least one fuzzy candidate exists (and the prompt
formats, i.e. scores are numeric as the retriever guarantees), a client
call that raises never propagates: the review step returns the fallback
verdict whose best match is the top-ranked fuzzy candidate, whose
confidence is that candidate's own similarity score, and whose reasoning
text embeds the failure reason. -/
theorem claimC5 (gs ints : List CandRec) (msg : String)
    (hne : gs ++ ints ≠ [])
    (hprompt : promptBuildOk (gs.take 10) (ints.take 10) = true) :
    ∃ p rest,
      sortMatches (taggedMatches gs ints) = p :: rest ∧
      reviewFuzzyMatchesWithClaude (.raises msg)
          ((sortMatches (taggedMatches gs ints)).take 10) (gs.take 10) (ints.take 10) =
        .ok { matchFound := .bool true
              bestSel := some .topMerged
              confidence := scorePy p.2
              reasoning := .str ("Using fuzzy match result (Claude review failed: " ++ msg ++ ")")
              concerns := .null
              fuzzyScore := scorePy p.2
              matchAnalyses := [] } ∧
      ∀ x ∈ gs ++ ints, scoreOf x ≤ scoreOf p.2 := by
  cases hs : sortMatches (taggedMatches gs ints) with
  | nil => exact absurd hs (sortMatches_ne_nil hne)
  | cons p rest =>
    have htb : reviewTryBody (.raises msg)
        ((sortMatches (taggedMatches gs ints)).take 10) (gs.take 10) (ints.take 10) =
        .error msg := by
      unfold reviewTryBody
      rw [hprompt]
      rfl
    rw [hs] at htb
    refine ⟨p, rest, rfl, ?_, sorted_head_ge hs⟩
    unfold reviewFuzzyMatchesWithClaude
    rw [htb]
    rfl

/-- When a value compares `==` to the string `golden_source`, it does not
compare `==` to `internal`. -/
theorem pyEqStr_gs_not_int {v : PyVal} (h : pyEqStr v "golden_source" = true) :
    pyEqStr v "internal" = false := by
  cases v with
  | str t =>
    simp only [pyEqStr, beq_iff_eq] at h ⊢
    subst h
    decide
  | null => rfl
  | bool b => rfl
  | int n => rfl
  | float q => rfl
  | arr xs => rfl
  | obj kvs => rfl

/-- And conversely. -/
theorem pyEqStr_int_not_gs {v : PyVal} (h : pyEqStr v "internal" = true) :
    pyEqStr v "golden_source" = false := by
  cases v with
  | str t =>
    simp only [pyEqStr, beq_iff_eq] at h ⊢
    subst h
    decide
  | null => rfl
  | bool b => rfl
  | int n => rfl
  | float q => rfl
  | arr xs => rfl
  | obj kvs => rfl

/-- When neither recognized-source-in-range branch applies, the `if/elif`
chain lands on the merged top. -/
theorem selectRecommended_bad {src : PyVal} {ix : PyIndex}
    {gsLen intLen allLen : Nat}
    (hga : ¬(pyEqStr src "golden_source" = true ∧ 0 ≤ ixVal ix ∧ ixVal ix < (gsLen : ℚ)))
    (hia : ¬(pyEqStr src "internal" = true ∧ 0 ≤ ixVal ix ∧ ixVal ix < (intLen : ℚ)))
    (hall : 0 < allLen) :
    selectRecommended src ix gsLen intLen allLen = .ok (some .topMerged) := by
  unfold selectRecommended
  rw [if_neg (by simpa [Bool.and_eq_true, decide_eq_true_eq, and_assoc] using hga),
    if_neg (by simpa [Bool.and_eq_true, decide_eq_true_eq, and_assoc] using hia),
    if_pos hall]

/-- Claim C4: for every parsed verdict whose `best_match_source` is
neither `golden_source` nor `internal`, or whose 1-based
`best_match_index` is out of range for the named source's truncated
candidate list, the review step completes without raising and its best
match is the globally top-ranked merged candidate — the head of the
sorted merged ranking, which dominates every candidate's similarity
score. -/
theorem claimC4 (gs ints : List CandRec) (text : String)
    (fields : List (String × PyVal))
    (hparse : parseClaudeResponse text = .obj fields)
    (hne : gs ++ ints ≠ [])
    (hbad :
      (pyEqStr (pyGetD fields "best_match_source" (.str "golden_source")) "golden_source" = false ∧
       pyEqStr (pyGetD fields "best_match_source" (.str "golden_source")) "internal" = false) ∨
      (pyEqStr (pyGetD fields "best_match_source" (.str "golden_source")) "golden_source" = true ∧
       ∀ ix, pySubOne (pyGetD fields "best_match_index" (.int 1)) = .ok ix →
         ¬(0 ≤ ixVal ix ∧ ixVal ix < ((gs.take 10).length : ℚ))) ∨
      (pyEqStr (pyGetD fields "best_match_source" (.str "golden_source")) "internal" = true ∧
       ∀ ix, pySubOne (pyGetD fields "best_match_index" (.int 1)) = .ok ix →
         ¬(0 ≤ ixVal ix ∧ ixVal ix < ((ints.take 10).length : ℚ)))) :
    ∃ rev p rest,
      sortMatches (taggedMatches gs ints) = p :: rest ∧
      reviewFuzzyMatchesWithClaude (.responds text)
          ((sortMatches (taggedMatches gs ints)).take 10) (gs.take 10) (ints.take 10) = .ok rev ∧
      rev.bestSel = some .topMerged ∧
      (sortMatches (taggedMatches gs ints)).take 10 = p :: rest.take 9 ∧
      ∀ x ∈ gs ++ ints, scoreOf x ≤ scoreOf p.2 := by
  cases hs : sortMatches (taggedMatches gs ints) with
  | nil => exact absurd hs (sortMatches_ne_nil hne)
  | cons p rest =>
    have hsel : ∀ r, reviewTryBody (.responds text) ((p :: rest).take 10)
        (gs.take 10) (ints.take 10) = .ok r → r.bestSel = some .topMerged := by
      intro r h
      unfold reviewTryBody at h
      split at h
      · exact absurd h (by simp)
      · simp only [hparse] at h
        split at h
        · exact absurd h (by simp)
        · rename_i ix hix
          have hselr : selectRecommended
              (pyGetD fields "best_match_source" (.str "golden_source")) ix
              (gs.take 10).length (ints.take 10).length ((p :: rest).take 10).length =
              .ok (some .topMerged) := by
            apply selectRecommended_bad
            · rcases hbad with ⟨h1, _⟩ | ⟨h1, h2⟩ | ⟨h1, h2⟩
              · rintro ⟨hc, _⟩; rw [h1] at hc; exact Bool.false_ne_true hc
              · rintro ⟨_, hc⟩; exact h2 ix hix hc
              · rintro ⟨hc, _⟩; rw [pyEqStr_int_not_gs h1] at hc; exact Bool.false_ne_true hc
            · rcases hbad with ⟨_, h1⟩ | ⟨h1, h2⟩ | ⟨h1, h2⟩
              · rintro ⟨hc, _⟩; rw [h1] at hc; exact Bool.false_ne_true hc
              · rintro ⟨hc, _⟩; rw [pyEqStr_gs_not_int h1] at hc; exact Bool.false_ne_true hc
              · rintro ⟨_, hc⟩; exact h2 ix hix hc
            · simp [List.take_succ_cons]
          simp only [hselr] at h
          split at h
          · exact absurd h (by simp)
          · split at h
            · exact absurd h (by simp)
            · simp only [Except.ok.injEq] at h
              subst h
              rfl
    obtain ⟨rev, hrev, htop⟩ := review_ok_of_tryBody (by simp [List.take_succ_cons]) hsel
    exact ⟨rev, p, rest, rfl, hrev, htop, List.take_succ_cons, sorted_head_ge hs⟩

/-- Witness for C4: a verdict naming an unrecognized source (`"nonsense"`)
over one candidate per source falls back to the merged top. -/
theorem claimC4Witness :
    ∃ rev p rest,
      sortMatches (taggedMatches [c1GoldenRec] [c1InternalRec]) = p :: rest ∧
      reviewFuzzyMatchesWithClaude
          (.responds "\x7b\"best_match_source\": \"nonsense\", \"best_match_index\": 1\x7d")
          ((sortMatches (taggedMatches [c1GoldenRec] [c1InternalRec])).take 10)
          ([c1GoldenRec].take 10) ([c1InternalRec].take 10) = .ok rev ∧
      rev.bestSel = some .topMerged ∧
      (sortMatches (taggedMatches [c1GoldenRec] [c1InternalRec])).take 10 = p :: rest.take 9 ∧
      ∀ x ∈ [c1GoldenRec] ++ [c1InternalRec], scoreOf x ≤ scoreOf p.2 :=
  claimC4 [c1GoldenRec] [c1InternalRec]
    "\x7b\"best_match_source\": \"nonsense\", \"best_match_index\": 1\x7d"
    [("best_match_source", .str "nonsense"), ("best_match_index", .int 1)]
    (by rfl) (by simp)
    (Or.inl (by decide))

/-- Dereferencing a valid candidate reference always lands inside one of
the two (post-attachment) candidate lists. -/
theorem resolveRef_mem {gs ints : List CandRec} {p : SelRef × CandRec}
    {rest : List (SelRef × CandRec)} {gsNow intNow : List CandRec}
    {sel : Option SelRef}
    (hs : sortMatches (taggedMatches gs ints) = p :: rest)
    (hgl : gsNow.length = gs.length) (hil : intNow.length = ints.length)
    (hg : ∀ n, sel = some (SelRef.gsAt n) → n < gsNow.length)
    (hi : ∀ n, sel = some (SelRef.intAt n) → n < intNow.length)
    (hn : sel ≠ none) :
    resolveRef (p :: rest) gsNow intNow sel ∈ gsNow ∨
    resolveRef (p :: rest) gsNow intNow sel ∈ intNow := by
  match sel with
  | none => exact absurd rfl hn
  | some (.gsAt n) =>
    exact Or.inl (getD_getElem_mem (hg n rfl))
  | some (.intAt n) =>
    exact Or.inr (getD_getElem_mem (hi n rfl))
  | some .topMerged =>
    have hp : p ∈ taggedMatches gs ints := by
      have : p ∈ sortMatches (taggedMatches gs ints) := by
        rw [hs]; exact List.mem_cons_self _ _
      exact (sortMatches_perm _).mem_iff.mp this
    obtain ⟨tag, rec⟩ := p
    rcases tagged_fst_cases hp with ⟨n, hfst, hlt⟩ | ⟨n, hfst, hlt⟩
    · simp only at hfst
      subst hfst
      exact Or.inl (getD_getElem_mem (by rw [hgl]; exact hlt))
    · simp only at hfst
      subst hfst
      exact Or.inr (getD_getElem_mem (by rw [hil]; exact hlt))

/-- Claim C10: whatever the reasoning-model client returns — any response
text, however malformed, or an exception — every `match_found=true` result
of `match_address` carries a best match that is an element of the returned
`golden_source_matches` or `internal_matches` lists, never a fabricated
record. -/
theorem claimC10 (gs ints : List CandRec) (total : Nat)
    (outcome : ClientOutcome) (thr : ℚ) (res : MatchOutput)
    (hok : matchAddress gs ints total outcome thr = .ok res)
    (hfound : res.matchFound = true) :
    ∃ r, res.bestMatch = some r ∧ (r ∈ res.gsMatches ∨ r ∈ res.intMatches) := by
  unfold matchAddress at hok
  by_cases ht : total = 0
  · rw [if_pos ht] at hok
    simp only [Except.ok.injEq] at hok
    subst hok
    simp at hfound
  · rw [if_neg ht] at hok
    cases hrev : reviewFuzzyMatchesWithClaude outcome
        ((sortMatches (taggedMatches gs ints)).take 10) (gs.take 10) (ints.take 10) with
    | error e => simp only [hrev] at hok; exact absurd hok (by simp)
    | ok rev =>
      simp only [hrev] at hok
      cases hs : sortMatches (taggedMatches gs ints) with
      | nil => simp only [hs] at hok; exact absurd hok (by simp)
      | cons p rest =>
        simp only [hs] at hok
        split at hok
        · exact absurd hok (by simp)
        · rename_i q hq
          simp only [Except.ok.injEq] at hok
          subst hok
          have hinv := review_bestSel_inv hrev
          have hgl : (attachAnalyses "gs_" rev.matchAnalyses 0 gs).length = gs.length :=
            attachAnalyses_length _ _ 0 gs
          have hil : (attachAnalyses "int_" rev.matchAnalyses 0 ints).length = ints.length :=
            attachAnalyses_length _ _ 0 ints
          by_cases hf : pyTruthy rev.matchFound = true
          · refine ⟨_, rfl, ?_⟩
            rw [if_pos hf]
            apply resolveRef_mem hs hgl hil
            · intro n hn
              have h1 := hinv.1 n hn
              simp only [List.length_take] at h1
              rw [hgl]
              omega
            · intro n hn
              have h1 := hinv.2.1 n hn
              simp only [List.length_take] at h1
              rw [hil]
              omega
            · intro hn
              have h1 := hinv.2.2.2 hn
              rw [hs] at h1
              simp at h1
          · refine ⟨_, rfl, ?_⟩
            rw [if_neg hf]
            apply resolveRef_mem hs hgl hil
            · intro n hn; simp at hn
            · intro n hn; simp at hn
            · intro hn; simp at hn

/-- Claim C6: in every `match_found=true` result, `business_rule_exception`
is set exactly when the reported confidence is strictly below the
process-wide configured threshold (the same threshold the result reports
as `confidence_threshold`); and the flag is purely advisory — two runs
differing only in the configured threshold return the same best match,
candidate lists, confidence, reasoning, and every other field apart from
the flag and the reported threshold. -/
theorem claimC6 :
    (∀ (gs ints : List CandRec) (total : Nat) (outcome : ClientOutcome) (thr : ℚ)
        (res : MatchOutput),
      matchAddress gs ints total outcome thr = .ok res →
      res.matchFound = true →
      ∃ v q, res.confidence = some v ∧ pyToQ v = some q ∧
        res.businessRuleException = some (decide (q < thr)) ∧
        res.confidenceThreshold = some thr) ∧
    (∀ (gs ints : List CandRec) (total : Nat) (outcome : ClientOutcome)
        (thr thr' : ℚ) (res res' : MatchOutput),
      matchAddress gs ints total outcome thr = .ok res →
      matchAddress gs ints total outcome thr' = .ok res' →
      res.matchFound = res'.matchFound ∧ res.bestMatch = res'.bestMatch ∧
      res.gsMatches = res'.gsMatches ∧ res.intMatches = res'.intMatches ∧
      res.hasGoldenSource = res'.hasGoldenSource ∧ res.hasInternal = res'.hasInternal ∧
      res.confidence = res'.confidence ∧ res.reasoning = res'.reasoning ∧
      res.candidatesSearched = res'.candidatesSearched ∧
      res.searchMethod = res'.searchMethod ∧ res.claudeReview = res'.claudeReview ∧
      res.adjudicationCalled = res'.adjudicationCalled) := by
  constructor
  · intro gs ints total outcome thr res hok hfound
    unfold matchAddress at hok
    by_cases ht : total = 0
    · rw [if_pos ht] at hok
      simp only [Except.ok.injEq] at hok
      subst hok
      simp at hfound
    · rw [if_neg ht] at hok
      cases hrev : reviewFuzzyMatchesWithClaude outcome
          ((sortMatches (taggedMatches gs ints)).take 10) (gs.take 10) (ints.take 10) with
      | error e => simp only [hrev] at hok; exact absurd hok (by simp)
      | ok rev =>
        simp only [hrev] at hok
        cases hs : sortMatches (taggedMatches gs ints) with
        | nil => simp only [hs] at hok; exact absurd hok (by simp)
        | cons p rest =>
          simp only [hs] at hok
          split at hok
          · exact absurd hok (by simp)
          · rename_i q hq
            simp only [Except.ok.injEq] at hok
            subst hok
            exact ⟨_, q, rfl, hq, rfl, rfl⟩
  · intro gs ints total outcome thr thr' res res' hok hok'
    unfold matchAddress at hok hok'
    by_cases ht : total = 0
    · rw [if_pos ht] at hok hok'
      simp only [Except.ok.injEq] at hok hok'
      subst hok
      subst hok'
      exact ⟨rfl, rfl, rfl, rfl, rfl, rfl, rfl, rfl, rfl, rfl, rfl, rfl⟩
    · rw [if_neg ht] at hok hok'
      cases hrev : reviewFuzzyMatchesWithClaude outcome
          ((sortMatches (taggedMatches gs ints)).take 10) (gs.take 10) (ints.take 10) with
      | error e => simp only [hrev] at hok; exact absurd hok (by simp)
      | ok rev =>
        simp only [hrev] at hok hok'
        cases hs : sortMatches (taggedMatches gs ints) with
        | nil => simp only [hs] at hok; exact absurd hok (by simp)
        | cons p rest =>
          simp only [hs] at hok hok'
          split at hok
          · exact absurd hok (by simp)
          · rename_i q hq
            simp only [hq, Except.ok.injEq] at hok hok'
            subst hok
            subst hok'
            exact ⟨rfl, rfl, rfl, rfl, rfl, rfl, rfl, rfl, rfl, rfl, rfl, rfl⟩

/-- Witness for C6: one concrete run pins the flag to the comparison, and
two runs at thresholds 80 and 20 agree on everything but the flag and the
reported threshold. -/
theorem claimC6Witness :
    (∃ res, matchAddress [c1GoldenRec] [c1InternalRec] 2 (.raises "down") 80 = .ok res ∧
      ∃ v q, res.confidence = some v ∧ pyToQ v = some q ∧
        res.businessRuleException = some (decide (q < 80)) ∧
        res.confidenceThreshold = some 80) ∧
    (∃ res res', matchAddress [c1GoldenRec] [c1InternalRec] 2 (.raises "down") 80 = .ok res ∧
      matchAddress [c1GoldenRec] [c1InternalRec] 2 (.raises "down") 20 = .ok res' ∧
      res.bestMatch = res'.bestMatch ∧ res.confidence = res'.confidence) := by
  constructor
  · exact ⟨_, rfl, claimC6.1 [c1GoldenRec] [c1InternalRec] 2 (.raises "down") 80 _ rfl rfl⟩
  · refine ⟨_, _, rfl, rfl, ?_, ?_⟩
    · exact (claimC6.2 [c1GoldenRec] [c1InternalRec] 2 (.raises "down") 80 20 _ _ rfl rfl).2.1
    · exact (claimC6.2 [c1GoldenRec] [c1InternalRec] 2 (.raises "down") 80 20 _ _ rfl rfl).2.2.2.2.2.2.1

/-- Witness for C5: a raised network error on two concrete candidates. -/
theorem claimC5Witness :
    ∃ p rest,
      sortMatches (taggedMatches [c1GoldenRec] [c1InternalRec]) = p :: rest ∧
      reviewFuzzyMatchesWithClaude (.raises "network down")
          ((sortMatches (taggedMatches [c1GoldenRec] [c1InternalRec])).take 10)
          ([c1GoldenRec].take 10) ([c1InternalRec].take 10) =
        .ok { matchFound := .bool true
              bestSel := some .topMerged
              confidence := scorePy p.2
              reasoning := .str ("Using fuzzy match result (Claude review failed: " ++ "network down" ++ ")")
              concerns := .null
              fuzzyScore := scorePy p.2
              matchAnalyses := [] } ∧
      ∀ x ∈ [c1GoldenRec] ++ [c1InternalRec], scoreOf x ≤ scoreOf p.2 :=
  claimC5 [c1GoldenRec] [c1InternalRec] "network down" (by simp) (by decide)

/-- Witness for C10: a concrete adjudication failure still returns a best
match drawn from the returned lists. -/
theorem claimC10Witness :
    ∃ res r, matchAddress [c1GoldenRec] [c1InternalRec] 2 (.raises "oops") 80 = .ok res ∧
      res.bestMatch = some r ∧ (r ∈ res.gsMatches ∨ r ∈ res.intMatches) := by
  refine ⟨_, ?_, rfl, ?_, ?_⟩
  all_goals have h := claimC10 [c1GoldenRec] [c1InternalRec] 2 (.raises "oops") 80 _ rfl rfl
  · exact h.choose
  · exact h.choose_spec.1
  · exact h.choose_spec.2
